import Mathlib

/-! # ydk-gen C++ core: diagnostics, value validation, errors, path engine

Shallow embedding of `sdk/cpp/core/src/path_api.hpp` and `errors.cpp`:

* `DiagnosticNode<E,T>` and its member `has_errors()`;
* `ValidationError`, `Range<T>`, `LengthRangeIntervals<T>`;
* `SchemaValueNumberType<T>::validate`, together with the C library routine
  `atoll` and the integral conversion `static_cast<T>` it relies on;
* the error classes and their constructors;
* the string and union value types, the schema and data trees and the path
  engine, whose bodies are not among the sources and follow the
  specification.

Machine integers are mathematical integers (`Int`) with explicit reduction
modulo `2 ^ w` where the C++ code narrows.
-/

namespace ydk.path

/-! ## Diagnostics -/

/-- Data validation error enum (`enum class ValidationError`). -/
inductive ValidationError where
  | SUCCESS
  | SCHEMA_NOT_FOUND
  | INVALID_USE_OF_SCHEMA
  | TOOMANY
  | DUPLEAFLIST
  | DUPLIST
  | NOUNIQ
  | OBSDATA
  | NORESOLV
  | INELEM
  | MISSELEM
  | INVAL
  | INVALATTR
  | INATTR
  | MISSATTR
  | NOCONSTR
  | INCHAR
  | INPRED
  | MCASEDATA
  | NOMUST
  | NOWHEN
  | INORDER
  | INWHEN
  | NOMIN
  | NOMAX
  | NOREQINS
  | NOLEAFREF
  | NOMANDCHOICE
  | INVALID_BOOL_VAL
  | INVALID_EMPTY_VAL
  | INVALID_PATTERN
  | INVALID_LENGTH
  | INVALID_IDENTITY
  | INVALID_ENUM
  | RANGE_VIOLATION
  deriving DecidableEq

/-- The template `DiagnosticNode<E,T>`: a tree of diagnostics. The raw pointer
`parent` is an address (`none` is the null pointer); `children` are stored by
value. -/
inductive DiagnosticNode (E T : Type) where
  | mk (parent : Option Nat) (source : E) (errors : List T)
      (children : List (DiagnosticNode E T)) : DiagnosticNode E T

namespace DiagnosticNode

variable {E T : Type}

/-- Field `parent`. -/
def parent : DiagnosticNode E T → Option Nat
  | mk p _ _ _ => p

/-- Field `source`. -/
def source : DiagnosticNode E T → E
  | mk _ s _ _ => s

/-- Field `errors`. -/
def errors : DiagnosticNode E T → List T
  | mk _ _ es _ => es

/-- Field `children`. -/
def children : DiagnosticNode E T → List (DiagnosticNode E T)
  | mk _ _ _ cs => cs

mutual
/-- Member `bool has_errors()`: `true` at once when the node's own `errors`
is not empty, otherwise the result of the loop over the children. -/
def has_errors : DiagnosticNode E T → Bool
  | mk _ _ errors children =>
    if !errors.isEmpty then true
    else has_errors_loop children
/-- The loop `for (auto c : children) if (c.has_errors()) return true;`
followed by `return false;`. -/
def has_errors_loop : List (DiagnosticNode E T) → Bool
  | [] => false
  | c :: rest => if has_errors c then true else has_errors_loop rest
end

mutual
/-- All descendants of a node, at any depth (the node itself excluded). -/
def descendants : DiagnosticNode E T → List (DiagnosticNode E T)
  | mk _ _ _ children => descendantsOfList children
/-- The nodes of a forest: every tree's root followed by its descendants. -/
def descendantsOfList : List (DiagnosticNode E T) → List (DiagnosticNode E T)
  | [] => []
  | c :: rest => c :: (descendants c ++ descendantsOfList rest)
end

/-- The node reached from `n` by following child indices; `[]` is `n` itself,
a path of length `k` is a descendant at depth `k`. -/
def nodeAt : DiagnosticNode E T → List Nat → Option (DiagnosticNode E T)
  | n, [] => some n
  | mk _ _ _ children, i :: is =>
    match children[i]? with
    | some c => nodeAt c is
    | none => none

/-- A full OR over the whole subtree that inspects every node and never stops
early. -/
def has_errors_full (n : DiagnosticNode E T) : Bool :=
  (n :: descendants n).foldl (fun acc d => acc || !d.errors.isEmpty) false

/-- One permutation of the `children` vector of one node of the tree, the node
being the root (`atNode`) or a node of one of its subtrees (`inChild`). -/
inductive PermuteChildren : DiagnosticNode E T → DiagnosticNode E T → Prop
  | atNode (p : Option Nat) (s : E) (es : List T) (cs cs' : List (DiagnosticNode E T)) :
      cs.Perm cs' → PermuteChildren (mk p s es cs) (mk p s es cs')
  | inChild (p : Option Nat) (s : E) (es : List T) (l₁ l₂ : List (DiagnosticNode E T))
      (c c' : DiagnosticNode E T) :
      PermuteChildren c c' →
      PermuteChildren (mk p s es (l₁ ++ c :: l₂)) (mk p s es (l₁ ++ c' :: l₂))

mutual
/-- State-passing reading of `has_errors()`, which is not a `const` member:
the result together with the object it was called on as it is after the call.
The body assigns to no field. -/
def has_errors_call : DiagnosticNode E T → Bool × DiagnosticNode E T
  | mk parent source errors children =>
    if !errors.isEmpty then (true, mk parent source errors children)
    else
      let r := has_errors_loop_call children
      (r.1, mk parent source errors r.2)
/-- State-passing reading of the loop `for (auto c : children)`: `c` is a copy
of the element, `c.has_errors()` runs on the copy, and the copy is dropped at
the end of the iteration, so the element of the vector stays what it was. -/
def has_errors_loop_call : List (DiagnosticNode E T) → Bool × List (DiagnosticNode E T)
  | [] => (false, [])
  | elem :: rest =>
    let c := elem
    let r := has_errors_call c
    if r.1 then (true, elem :: rest)
    else
      let r' := has_errors_loop_call rest
      (r'.1, elem :: r'.2)
end


end DiagnosticNode

/-! ## Ranges and integer types -/

/-- The template `Range<T>`; the bounds are values of `T`, kept as the
integers they denote. -/
structure Range where
  min : Int
  max : Int
  deriving DecidableEq

/-- The template `LengthRangeIntervals<T>`. -/
structure LengthRangeIntervals where
  default_range : Range
  intervals : List Range
  deriving DecidableEq

/-- Constructor `LengthRangeIntervals(Range<T> m_default_range)`: `intervals`
starts empty. -/
def LengthRangeIntervals.new (m_default_range : Range) : LengthRangeIntervals :=
  { default_range := m_default_range, intervals := [] }

/-- The enumeration `SchemaValueType::DataType`. -/
inductive DataType where
  | UNKNOWN
  | BINARY
  | BITS
  | BOOL
  | DEC64
  | EMPTY
  | ENUMERATION
  | IDENTITY
  | LEAFREF
  | STRING
  | INT8
  | UINT8
  | INT16
  | UINT16
  | INT32
  | UINT32
  | INT64
  | UINT64
  | UNION
  deriving DecidableEq

/-- The fixed-width integer types `T` at which `SchemaValueNumberType<T>` is
instantiated. -/
inductive NumberT where
  | int8_t
  | uint8_t
  | int16_t
  | uint16_t
  | int32_t
  | uint32_t
  | int64_t
  | uint64_t
  deriving DecidableEq

namespace NumberT

/-- Width of the type in bits. -/
def bits : NumberT → Nat
  | int8_t | uint8_t => 8
  | int16_t | uint16_t => 16
  | int32_t | uint32_t => 32
  | int64_t | uint64_t => 64

/-- Whether the type is signed. -/
def isSigned : NumberT → Bool
  | int8_t | int16_t | int32_t | int64_t => true
  | uint8_t | uint16_t | uint32_t | uint64_t => false

/-- Smallest value of the type (`std::numeric_limits<T>::min()`). -/
def minValue (t : NumberT) : Int :=
  if t.isSigned then -(2 ^ (t.bits - 1)) else 0

/-- Largest value of the type (`std::numeric_limits<T>::max()`). -/
def maxValue (t : NumberT) : Int :=
  if t.isSigned then 2 ^ (t.bits - 1) - 1 else 2 ^ t.bits - 1

end NumberT

/-- The constant `LLONG_MIN`. -/
def LLONG_MIN : Int := -(2 ^ 63)

/-- The constant `LLONG_MAX`. -/
def LLONG_MAX : Int := 2 ^ 63 - 1

/-- The conversion `static_cast<T>(x)` of a `long long` to the integer type
`T`: the unique value of `T` congruent to `x` modulo `2 ^ bits`. -/
def static_cast (t : NumberT) (x : Int) : Int :=
  if t.isSigned then
    (x + 2 ^ (t.bits - 1)) % 2 ^ t.bits - 2 ^ (t.bits - 1)
  else
    x % 2 ^ t.bits

/-! ## The C library routine `atoll` -/

/-- The classifier `isspace` in the "C" locale: space, `\t`, `\n`, `\v`, `\f`, `\r`. -/
def isspace (c : Char) : Bool :=
  c.toNat = 32 || (9 ≤ c.toNat && c.toNat ≤ 13)

/-- The classifier `isdigit`: `'0'` to `'9'`. -/
def isdigit (c : Char) : Bool :=
  48 ≤ c.toNat && c.toNat ≤ 57

/-- The member `std::string::c_str()` read as a C string: the characters before the first
NUL. -/
def c_str (value : String) : List Char :=
  value.data.takeWhile (fun c => c.toNat ≠ 0)

/-- Skip the leading white space of a C string. -/
def skipSpace : List Char → List Char
  | [] => []
  | c :: cs => if isspace c then skipSpace cs else c :: cs

/-- Accumulate the longest prefix of decimal digits, most significant first;
the scan stops at the first character that is not a digit. -/
def digitRun (acc : Nat) : List Char → Nat
  | [] => acc
  | c :: cs => if isdigit c then digitRun (acc * 10 + (c.toNat - 48)) cs else acc

/-- The integer `strtoll(nptr, NULL, 10)` reads before any range check: white
space, an optional sign, the longest run of digits; `0` when there is no
digit. -/
def strtollExact (nptr : List Char) : Int :=
  match skipSpace nptr with
  | '-' :: cs => -(digitRun 0 cs : Int)
  | '+' :: cs => (digitRun 0 cs : Int)
  | cs => (digitRun 0 cs : Int)

/-- The routine `atoll(nptr)`, that is `strtoll(nptr, NULL, 10)`: a value outside
`long long` comes back as `LLONG_MIN` or `LLONG_MAX` (what `strtoll` returns;
the C standard leaves `atoll` undefined there). -/
def atoll (nptr : List Char) : Int :=
  let v := strtollExact nptr
  if v < LLONG_MIN then LLONG_MIN
  else if v > LLONG_MAX then LLONG_MAX
  else v

/-! ## Decimal integers, as the specification speaks of them -/

/-- The natural number a string of decimal digits denotes. -/
def decimalDigitsValue (ds : List Char) : Nat :=
  ds.foldl (fun a c => 10 * a + (c.toNat - 48)) 0

/-- A well-formed decimal integer: an optional sign followed by one or more
decimal digits and nothing else. -/
def isDecimalInteger (s : String) : Bool :=
  match s.data with
  | '-' :: ds => !ds.isEmpty && ds.all isdigit
  | '+' :: ds => !ds.isEmpty && ds.all isdigit
  | ds => !ds.isEmpty && ds.all isdigit

/-- The mathematical integer a well-formed decimal integer denotes. -/
def decimalValue (s : String) : Int :=
  match s.data with
  | '-' :: ds => -(decimalDigitsValue ds : Int)
  | '+' :: ds => (decimalDigitsValue ds : Int)
  | ds => (decimalDigitsValue ds : Int)

/-! ## Number types -/

/-- The template `SchemaValueNumberType<T>`: the members `module_name` and
`type` of the base `SchemaValueType`, and `range`. -/
structure SchemaValueNumberType (T : NumberT) where
  module_name : String
  type : DataType
  range : LengthRangeIntervals
  deriving DecidableEq

namespace SchemaValueNumberType

/-- Constructor `SchemaValueNumberType(T min, T max)`: a value-initialised
base and `range{Range<T>{min, max}}`. -/
def new (T : NumberT) (min max : Int) : SchemaValueNumberType T :=
  { module_name := "", type := DataType.UNKNOWN,
    range := LengthRangeIntervals.new { min := min, max := max } }

/-- The statement `diag.errors.push_back(e)`. -/
def push_error (diag : DiagnosticNode String ValidationError) (e : ValidationError) :
    DiagnosticNode String ValidationError :=
  match diag with
  | .mk parent source errors children => .mk parent source (errors ++ [e]) children

/-- The loop `for (auto r : range.intervals)` of `validate` and the
`push_back` after it: `diag` is returned untouched at the first interval that
holds `number`, and with `RANGE_VIOLATION` when no interval does. -/
def validate_intervals (number : Int) (diag : DiagnosticNode String ValidationError) :
    List Range → DiagnosticNode String ValidationError
  | [] => push_error diag ValidationError.RANGE_VIOLATION
  | r :: rest =>
    if number ≥ r.min && number ≤ r.max then diag
    else validate_intervals number diag rest

/-- Member `validate(const std::string& value)`. -/
def validate {T : NumberT} (self : SchemaValueNumberType T) (value : String) :
    DiagnosticNode String ValidationError :=
  let diag : DiagnosticNode String ValidationError := .mk none "" [] []
  if value.data.isEmpty then
    push_error diag ValidationError.INVALATTR
  else
    let number := static_cast T (atoll (c_str value))
    if self.range.intervals.isEmpty then
      if number < self.range.default_range.min || number > self.range.default_range.max then
        push_error diag ValidationError.RANGE_VIOLATION
      else diag
    else
      validate_intervals number diag self.range.intervals

end SchemaValueNumberType

end ydk.path

/-! ## Errors (`errors.cpp`) -/

namespace ydk

/-- Modelled from the spec: the declaration of class `YCPPError` is in
`errors.hpp`, which is not among the sources; its data member is the string
`err_msg` that the constructor initialises and `what()` reads. -/
structure YCPPError where
  err_msg : String
  deriving DecidableEq

namespace YCPPError

/-- Constructor `YCPPError(const std::string& msg) : err_msg{msg}`; the call
of `what()` in its body discards the result. -/
def new (msg : String) : YCPPError :=
  { err_msg := msg }

/-- Member `what()`: `err_msg.c_str()`, read as a C string. -/
def what (self : YCPPError) : List Char :=
  path.c_str self.err_msg

end YCPPError

/-- Class `YCPPIllegalStateError`, derived from `YCPPError`. -/
structure YCPPIllegalStateError extends YCPPError
  deriving DecidableEq

/-- Constructor `YCPPIllegalStateError(msg) : YCPPError{msg}`. -/
def YCPPIllegalStateError.new (msg : String) : YCPPIllegalStateError :=
  { toYCPPError := YCPPError.new msg }

/-- Class `YCPPInvalidArgumentError`, derived from `YCPPError`. -/
structure YCPPInvalidArgumentError extends YCPPError
  deriving DecidableEq

/-- Constructor `YCPPInvalidArgumentError(msg) : YCPPError{msg}`. -/
def YCPPInvalidArgumentError.new (msg : String) : YCPPInvalidArgumentError :=
  { toYCPPError := YCPPError.new msg }

/-- Class `YCPPOperationNotSupportedError`, derived from `YCPPError`. -/
structure YCPPOperationNotSupportedError extends YCPPError
  deriving DecidableEq

/-- Constructor `YCPPOperationNotSupportedError(msg) : YCPPError{msg}`. -/
def YCPPOperationNotSupportedError.new (msg : String) : YCPPOperationNotSupportedError :=
  { toYCPPError := YCPPError.new msg }

/-- Class `YCPPModelError`, derived from `YCPPError`. -/
structure YCPPModelError extends YCPPError
  deriving DecidableEq

/-- Constructor `YCPPModelError(msg) : YCPPError{msg}`. -/
def YCPPModelError.new (msg : String) : YCPPModelError :=
  { toYCPPError := YCPPError.new msg }

namespace path

/-- The struct `YCPPCoreError`, derived from `ydk::YCPPError`. -/
structure YCPPCoreError extends YCPPError
  deriving DecidableEq

/-- Constructor `YCPPCoreError(const std::string& msg) : ydk::YCPPError{msg}`. -/
def YCPPCoreError.new (msg : String) : YCPPCoreError :=
  { toYCPPError := YCPPError.new msg }

/-- The struct `YCPPDataValidationError` without its `errors` vector, which
the constructor leaves empty. -/
structure YCPPDataValidationError extends YCPPCoreError
  deriving DecidableEq

/-- Constructor `YCPPDataValidationError()`. -/
def YCPPDataValidationError.new : YCPPDataValidationError :=
  { toYCPPCoreError := YCPPCoreError.new "Data Validation Error" }

/-- The enumeration `YCPPPathError::Error`. -/
inductive YCPPPathError.Error where
  | SUCCESS
  | XPATH_INTOK
  | XPATH_EOF
  | XPATH_INOP
  | XPATH_INCTX
  | PATH_INCHAR
  | PATH_INMOD
  | PATH_MISSMOD
  | PATH_INNODE
  | PATH_INKEY
  | PATH_MISSKEY
  | PATH_EXISTS
  | PATH_MISSPAR
  | PATH_AMBIGUOUS
  deriving DecidableEq

/-- The struct `YCPPPathError`: a `YCPPCoreError` with the member `err`. -/
structure YCPPPathError extends YCPPCoreError where
  err : YCPPPathError.Error
  deriving DecidableEq

/-- Constructor `YCPPPathError(YCPPPathError::Error error_code)`. -/
def YCPPPathError.new (error_code : YCPPPathError.Error) : YCPPPathError :=
  { toYCPPCoreError := YCPPCoreError.new "Data Validation Error", err := error_code }

/-- The enumeration `YCPPCodecError::Error`. -/
inductive YCPPCodecError.Error where
  | SUCCESS
  | XML_MISS
  | XML_INVAL
  | XML_INCHAR
  | EOF_ERR
  deriving DecidableEq

/-- The struct `YCPPCodecError`: a `YCPPCoreError` with the member `err`. -/
structure YCPPCodecError extends YCPPCoreError where
  err : YCPPCodecError.Error
  deriving DecidableEq

/-- Constructor `YCPPCodecError(YCPPCodecError::Error ec)`; the message is
what the libyang routine `ly_errmsg()` returns at the time of the call, here
the argument `ly_errmsg`. -/
def YCPPCodecError.new (ly_errmsg : String) (ec : YCPPCodecError.Error) : YCPPCodecError :=
  { toYCPPCoreError := YCPPCoreError.new ly_errmsg, err := ec }

end path

end ydk

/-! ## Termination of `has_errors` -/

namespace ydk.path.DiagnosticNode

variable {E T : Type}

/-- Number of nodes of the tree rooted at `n`. -/
def nodeCount (n : DiagnosticNode E T) : Nat :=
  1 + (descendants n).length

mutual
/-- The member `has_errors()` run with a bound on the depth of nested calls:
every call of `has_errors()` takes one unit of `fuel`, and `none` is returned
when a call is made with none left. -/
def has_errors_fuel : Nat → DiagnosticNode E T → Option Bool
  | 0, _ => none
  | fuel + 1, mk _ _ errors children =>
    if !errors.isEmpty then some true
    else has_errors_loop_fuel fuel children
/-- The loop over the children, each call `c.has_errors()` being given
`fuel`. -/
def has_errors_loop_fuel : Nat → List (DiagnosticNode E T) → Option Bool
  | _, [] => some false
  | fuel, c :: rest =>
    match has_errors_fuel fuel c with
    | none => none
    | some true => some true
    | some false => has_errors_loop_fuel fuel rest
end

end ydk.path.DiagnosticNode

/-! ## String and union types -/

namespace ydk.path

/-- The struct `SchemaValueStringType`: the members of the base
`SchemaValueType`, the `length` restriction and the `patterns`. -/
structure SchemaValueStringType where
  module_name : String
  type : DataType
  length : LengthRangeIntervals
  patterns : List String
  deriving DecidableEq

namespace SchemaValueStringType

/-- Modelled from the spec: the length check of a string type, whose code is
not among the sources. "Length is checked the same way" as a numeric range:
the default interval when there is no explicit interval, else any one of the
explicit intervals. -/
def length_ok (self : SchemaValueStringType) (value : String) : Bool :=
  if self.length.intervals.isEmpty then
    decide (self.length.default_range.min ≤ (value.length : Int)) &&
      decide ((value.length : Int) ≤ self.length.default_range.max)
  else
    self.length.intervals.any (fun r =>
      decide (r.min ≤ (value.length : Int)) && decide ((value.length : Int) ≤ r.max))

/-- Modelled from the spec: `SchemaValueStringType::validate` is declared in
`path_api.hpp` and its body is not among the sources. A length violation is
reported when the length check fails; the patterns are independent
constraints, every configured pattern must match, else a pattern violation
is reported. The regular-expression matcher is the argument `regex_match`
(pattern first, then value). -/
def validate (regex_match : String → String → Bool) (self : SchemaValueStringType)
    (value : String) : DiagnosticNode String ValidationError :=
  DiagnosticNode.mk none ""
    ((if length_ok self value then [] else [ValidationError.INVALID_LENGTH]) ++
      (if self.patterns.all (fun p => regex_match p value) then []
        else [ValidationError.INVALID_PATTERN]))
    []

end SchemaValueStringType

/-- The struct `SchemaValueUnionType`: the members of the base
`SchemaValueType` and the member `types`, each member type being given by its
virtual `validate`. -/
structure SchemaValueUnionType where
  module_name : String
  type : DataType
  types : List (String → DiagnosticNode String ValidationError)

namespace SchemaValueUnionType

/-- Modelled from the spec: `SchemaValueUnionType::validate` is declared in
`path_api.hpp` and its body is not among the sources. "Success if any member
type validates the value without error (first success wins); otherwise
aggregate all member diagnostics under this node": the diagnostic of the first
member without errors is returned; when there is none the value is not
acceptable, so by the contract of section 4.1 ("errors is empty iff the value
is acceptable") the returned node carries an error of its own, and the member
diagnostics are its children. The spec does not name the code of that error:
it is the argument `failure`. -/
def validate (failure : ValidationError) (self : SchemaValueUnionType) (value : String) :
    DiagnosticNode String ValidationError :=
  match (self.types.map (fun t => t value)).find? (fun d => !d.has_errors) with
  | some d => d
  | none => DiagnosticNode.mk none "" [failure] (self.types.map (fun t => t value))

end SchemaValueUnionType

end ydk.path

/-! ## Schema tree, data tree and path engine

The bodies of `DataNodeImpl::path`, `find` and `create` and of
`RootSchemaNodeImpl::create` are not among the sources (`path_private.hpp`
only declares them); this part follows sections 3 and 4.3 of the
specification. A path expression is a text; it is parsed into its list of
segments (see "Path expressions as text" below), on which module resolution,
schema resolution and the walk of the data tree work. A node of a data tree
is named by its position: the list of child indices leading to it from the
root, `[]` being the root itself. Children are appended at the end and never
removed, so a position names the same node before and after a `create`. -/

namespace ydk.path

/-- The struct `Statement`: the YANG keyword and its argument. -/
structure Statement where
  keyword : String
  arg : String
  deriving DecidableEq

/-- The struct `Annotation`: namespace, name and value. -/
structure Annotation where
  m_ns : String
  m_name : String
  m_val : String
  deriving DecidableEq

/-- Modelled from the spec: a node of the schema tree (section 3), with the
module it belongs to, its originating statement, the key statements of a list
and its children. The value type of a leaf plays no part in the path engine
and is left out. -/
inductive SchemaNode where
  | mk (module_name : String) (statement : Statement) (keys : List Statement)
      (children : List SchemaNode) : SchemaNode

namespace SchemaNode

/-- Module the schema node belongs to. -/
def module_name : SchemaNode → String
  | mk m _ _ _ => m

/-- Member `statement()`. -/
def statement : SchemaNode → Statement
  | mk _ st _ _ => st

/-- Member `keys()`. -/
def keys : SchemaNode → List Statement
  | mk _ _ ks _ => ks

/-- Member `children()`. -/
def children : SchemaNode → List SchemaNode
  | mk _ _ _ cs => cs

/-- Name of the node: the argument of its statement. -/
def name (s : SchemaNode) : String :=
  s.statement.arg

/-- Whether the node is a list. -/
def is_list (s : SchemaNode) : Bool :=
  s.statement.keyword == "list"

/-- Whether the node carries a value: leaf, leaf-list or anyxml. -/
def has_value (s : SchemaNode) : Bool :=
  s.statement.keyword == "leaf" || s.statement.keyword == "leaf-list" ||
    s.statement.keyword == "anyxml"

end SchemaNode

/-- Modelled from the spec: the root of the schema tree, owner of the
top-level schema nodes. -/
structure RootSchemaNode where
  children : List SchemaNode

/-- Modelled from the spec: a node of a data tree (section 3): the schema node
it instantiates, its value, its annotations and its children. -/
inductive DataNode where
  | mk (schema : SchemaNode) (value : String) (annotations : List Annotation)
      (children : List DataNode) : DataNode

namespace DataNode

/-- Member `schema()`. -/
def schema : DataNode → SchemaNode
  | mk s _ _ _ => s

/-- Member `get()`. -/
def value : DataNode → String
  | mk _ v _ _ => v

/-- Member `annotations()`. -/
def annotations : DataNode → List Annotation
  | mk _ _ a _ => a

/-- Member `children()`. -/
def children : DataNode → List DataNode
  | mk _ _ _ cs => cs

/-- Name of the node: the name of its schema node. -/
def name (n : DataNode) : String :=
  n.schema.name

/-- The node with another value (member `set`). -/
def with_value (n : DataNode) (v : String) : DataNode :=
  match n with
  | mk s _ a cs => mk s v a cs

/-- The node with other children. -/
def with_children (n : DataNode) (cs : List DataNode) : DataNode :=
  match n with
  | mk s v a _ => mk s v a cs

end DataNode

/-- Modelled from the spec: the root of a data tree: the root of the schema
tree it is built against and the top-level data nodes. -/
structure RootData where
  schema : RootSchemaNode
  children : List DataNode

/-- Modelled from the spec: a predicate of a data-mode path segment:
`[key='value']` or `[.='value']`. (The bare `[key]` belongs to schema
mode.) -/
inductive Predicate where
  | key_equals (key value : String)
  | self_equals (value : String)
  deriving DecidableEq

/-- Modelled from the spec: a path segment `[module:]name[predicate]*`. -/
structure Segment where
  module_name : Option String
  name : String
  predicates : List Predicate
  deriving DecidableEq

/-- A path segment with the module it is resolved in. -/
structure QualifiedSegment where
  module_name : String
  name : String
  predicates : List Predicate
  deriving DecidableEq

/-- The path error thrown with a given code. -/
def path_error (code : YCPPPathError.Error) : YCPPPathError :=
  YCPPPathError.new code

/-- The module a segment is resolved in: its own prefix when it has one, else
the inherited module. -/
def effective_module (seg : Segment) (inherited : Option String) : Option String :=
  match seg.module_name with
  | some m => some m
  | none => inherited

/-- Modelled from the spec: module resolution of a path. "The first segment
of a path must carry an explicit module prefix; every subsequent segment
inherits the nearest ancestor's module unless it specifies its own." A
segment without module and with nothing to inherit is the structural error
"missing module". -/
def qualify : Option String → List Segment → Except YCPPPathError (List QualifiedSegment)
  | _, [] => .ok []
  | inherited, seg :: rest =>
    match effective_module seg inherited with
    | none => .error (path_error YCPPPathError.Error.PATH_MISSMOD)
    | some m =>
      match qualify (some m) rest with
      | .ok qs => .ok ({ module_name := m, name := seg.name, predicates := seg.predicates } :: qs)
      | .error e => .error e

/-- The children that satisfy `p`, each with its index, the first child having
index `start`. -/
def matching (p : DataNode → Bool) : Nat → List DataNode → List (Nat × DataNode)
  | _, [] => []
  | start, c :: rest =>
    if p c then (start, c) :: matching p (start + 1) rest
    else matching p (start + 1) rest

/-- Modelled from the spec: a predicate as a filter in data mode, by exact
value match: `[key='value']` asks for a child leaf `key` with that value,
`[.='value']` for that value of the node itself. -/
def holds (n : DataNode) : Predicate → Bool
  | Predicate.key_equals k v => n.children.any (fun c => c.name == k && c.value == v)
  | Predicate.self_equals v => n.value == v

/-- Modelled from the spec: `find` matches "each segment's name (and module)
against children, applying predicates as filters". -/
def matches_segment (q : QualifiedSegment) (n : DataNode) : Bool :=
  n.schema.module_name == q.module_name && n.name == q.name && q.predicates.all (holds n)

/-- Modelled from the spec: resolution walks the tree segment by segment and
"returns all matches, zero, one, or many, at the terminal segment", as
positions relative to the node whose children are given. -/
def find_walk : List QualifiedSegment → List DataNode → List (List Nat)
  | [], _ => [[]]
  | q :: rest, children =>
    (matching (matches_segment q) 0 children).flatMap
      (fun ic => (find_walk rest ic.2.children).map (fun p => ic.1 :: p))

/-- Modelled from the spec: `RootDataImpl::find`, declared in
`path_private.hpp`, its body not among the sources: `find` issued against the
root of a data tree, module resolution first, then the walk; the result is
the set of positions of the matches, or the path error. -/
def RootData.find (root : RootData) (path : List Segment) :
    Except YCPPPathError (List (List Nat)) :=
  match qualify none path with
  | .error e => .error e
  | .ok qs => .ok (find_walk qs root.children)

/-- A path segment resolved against the schema: the schema node it names and,
for a list, the key values its predicates supply. -/
structure Step where
  schema : SchemaNode
  key_values : List (String × String)

/-- The schema child with a given module and name. -/
def find_schema_child (children : List SchemaNode) (module_name name : String) :
    Option SchemaNode :=
  children.find? (fun s => s.module_name == module_name && s.name == name)

/-- The key values the predicates of a segment supply. -/
def supplied_keys : List Predicate → List (String × String)
  | [] => []
  | Predicate.key_equals k v :: rest => (k, v) :: supplied_keys rest
  | Predicate.self_equals _ :: rest => supplied_keys rest

/-- Modelled from the spec: resolution of a qualified path against the schema
tree: every segment must name a schema child of the node the segment before
it names. A name that is no schema child is "invalid node name", and on a
list segment a predicate on an undeclared key is "invalid key name". Whether
all the keys of a list are supplied is not looked at here: it matters only
where a list instance has to be created, see `create_walk`. -/
def resolve : List SchemaNode → List QualifiedSegment → Except YCPPPathError (List Step)
  | _, [] => .ok []
  | schema_children, q :: rest =>
    match find_schema_child schema_children q.module_name q.name with
    | none => .error (path_error YCPPPathError.Error.PATH_INNODE)
    | some s =>
      if s.is_list &&
          !(supplied_keys q.predicates).all (fun kv => s.keys.any (fun k => k.arg == kv.1)) then
        .error (path_error YCPPPathError.Error.PATH_INKEY)
      else
        match resolve s.children rest with
        | .ok steps =>
          .ok ({ schema := s,
                 key_values := if s.is_list then supplied_keys q.predicates else [] } :: steps)
        | .error e => .error e

/-- Modelled from the spec: in creation an existing child matches the segment
by "name/module, and, for list nodes, all supplied key predicates". -/
def Step.matches_node (st : Step) (n : DataNode) : Bool :=
  n.schema.module_name == st.schema.module_name && n.name == st.schema.name &&
    st.key_values.all (fun kv => n.children.any (fun c => c.name == kv.1 && c.value == kv.2))

/-- The schema node of the key leaf `key` of a list: the child of that name,
or a leaf of that name when the schema has no such child. -/
def key_leaf_schema (s : SchemaNode) (key : String) : SchemaNode :=
  match s.children.find? (fun c => c.name == key) with
  | some leaf => leaf
  | none => SchemaNode.mk s.module_name { keyword := "leaf", arg := key } [] []

/-- Modelled from the spec: "a new DataNode is created, bound to the matching
SchemaNode child, and any key predicates are applied as initial child-leaf
values". -/
def Step.new_node (st : Step) : DataNode :=
  DataNode.mk st.schema "" []
    (st.key_values.map (fun kv => DataNode.mk (key_leaf_schema st.schema kv.1) kv.2 [] []))

/-- Modelled from the spec: "the terminal segment, if it denotes a leaf,
leaf-list, or anyxml, has its value set verbatim from the supplied value
argument". -/
def set_terminal (value : String) (n : DataNode) : DataNode :=
  if n.schema.has_value then n.with_value value else n

/-- Whether a step names a list without supplying all its declared keys. -/
def Step.missing_key (st : Step) : Bool :=
  st.schema.is_list &&
    !st.schema.keys.all (fun k => st.key_values.any (fun kv => kv.1 == k.arg))

/-- Modelled from the spec: creation walks the steps "with get-or-create
semantics per segment". "If an existing child matches the segment
(name/module, and, for list nodes, all supplied key predicates), it is
reused"; more than one candidate is the "ambiguous" failure; "otherwise a new
DataNode is created", appended to the children, and there "list segments in
creation mode require every declared key to be present as a predicate, a
missing key is a structural error". The result is the new children and the
position of the terminal node. -/
def create_walk (value : String) :
    List Step → List DataNode → Except YCPPPathError (List DataNode × List Nat)
  | [], children => .ok (children, [])
  | st :: rest, children =>
    match matching st.matches_node 0 children with
    | [] =>
      if st.missing_key then .error (path_error YCPPPathError.Error.PATH_MISSKEY)
      else
        let node := if rest.isEmpty then set_terminal value st.new_node else st.new_node
        match create_walk value rest node.children with
        | .ok (cs, p) => .ok (children ++ [node.with_children cs], children.length :: p)
        | .error e => .error e
    | [(i, c)] =>
      let node := if rest.isEmpty then set_terminal value c else c
      match create_walk value rest node.children with
      | .ok (cs, p) => .ok (children.set i (node.with_children cs), i :: p)
      | .error e => .error e
    | _ => .error (path_error YCPPPathError.Error.PATH_AMBIGUOUS)

/-- Modelled from the spec: `RootDataImpl::create(path, value)`, declared in
`path_private.hpp`, its body not among the sources: module resolution,
resolution against the schema, then the walk of the data tree; the result is
the tree after the call and the position of the terminal node, or the path
error, in which case no node is returned. -/
def RootData.create (root : RootData) (path : List Segment) (value : String) :
    Except YCPPPathError (RootData × List Nat) :=
  match qualify none path with
  | .error e => .error e
  | .ok qs =>
    match resolve root.schema.children qs with
    | .error e => .error e
    | .ok steps =>
      match create_walk value steps root.children with
      | .ok (cs, p) => .ok ({ root with children := cs }, p)
      | .error e => .error e

mutual
/-- Number of nodes of the subtree rooted at a data node. -/
def DataNode.count : DataNode → Nat
  | DataNode.mk _ _ _ children => 1 + count_nodes children
/-- Number of nodes of a forest of data nodes. -/
def count_nodes : List DataNode → Nat
  | [] => 0
  | c :: rest => c.count + count_nodes rest
end

/-- Number of data nodes of a data tree. -/
def RootData.node_count (root : RootData) : Nat :=
  count_nodes root.children

/-- The schema of the scenarios of section 8 of the specification: module `M`
with a container `c` holding a leaf `x`, and a list `l` with key `id` and a
leaf `name`. -/
def scenario_schema : RootSchemaNode :=
  { children :=
      [SchemaNode.mk "M" { keyword := "container", arg := "c" } []
         [SchemaNode.mk "M" { keyword := "leaf", arg := "x" } [] []],
       SchemaNode.mk "M" { keyword := "list", arg := "l" } [{ keyword := "leaf", arg := "id" }]
         [SchemaNode.mk "M" { keyword := "leaf", arg := "id" } [] [],
          SchemaNode.mk "M" { keyword := "leaf", arg := "name" } [] []]] }

/-- An empty data tree over the scenario schema. -/
def scenario_root : RootData :=
  { schema := scenario_schema, children := [] }

/-- The path `/M:c/x`. -/
def scenario_path : List Segment :=
  [{ module_name := some "M", name := "c", predicates := [] },
   { module_name := none, name := "x", predicates := [] }]

/-- The data tree that holds the container `c` and its leaf `x` with value
"5". -/
def scenario_tree : RootData :=
  { schema := scenario_schema,
    children :=
      [DataNode.mk (SchemaNode.mk "M" { keyword := "container", arg := "c" } []
          [SchemaNode.mk "M" { keyword := "leaf", arg := "x" } [] []]) "" []
        [DataNode.mk (SchemaNode.mk "M" { keyword := "leaf", arg := "x" } [] []) "5" [] []]] }

end ydk.path

/-! ## Growing a diagnostic tree -/

namespace ydk.path.DiagnosticNode

variable {E T : Type}

/-- One addition to a diagnostic tree: an error appended to the `errors` of a
node (`push_back` on `errors`) or a subtree appended to the `children` of a
node (`push_back` on `children`), the node being the root or any node below
it (`inChild`). -/
inductive Grows : DiagnosticNode E T → DiagnosticNode E T → Prop
  | addError (p : Option Nat) (s : E) (es : List T) (cs : List (DiagnosticNode E T)) (e : T) :
      Grows (mk p s es cs) (mk p s (es ++ [e]) cs)
  | addChild (p : Option Nat) (s : E) (es : List T) (cs : List (DiagnosticNode E T))
      (c : DiagnosticNode E T) :
      Grows (mk p s es cs) (mk p s es (cs ++ [c]))
  | inChild (p : Option Nat) (s : E) (es : List T) (l₁ l₂ : List (DiagnosticNode E T))
      (c c' : DiagnosticNode E T) :
      Grows c c' →
      Grows (mk p s es (l₁ ++ c :: l₂)) (mk p s es (l₁ ++ c' :: l₂))

end ydk.path.DiagnosticNode

/-! ## Properties of `has_errors` -/

namespace ydk.path.DiagnosticNode

variable {E T : Type}

/-- Induction on diagnostic trees: a property that holds of a node whenever it
holds of all its children holds of every node. -/
theorem induct {motive : DiagnosticNode E T → Prop}
    (step : ∀ p s es cs, (∀ c ∈ cs, motive c) → motive (mk p s es cs))
    (n : DiagnosticNode E T) : motive n :=
  DiagnosticNode.rec (motive_1 := motive) (motive_2 := fun cs => ∀ c ∈ cs, motive c)
    (fun p s es cs ih => step p s es cs ih)
    (fun c hc => by simp at hc)
    (fun c cs ihc ihcs d hd => by
      rcases List.mem_cons.mp hd with h | h
      · exact h ▸ ihc
      · exact ihcs d h) n

theorem has_errors_loop_eq_any (cs : List (DiagnosticNode E T)) :
    has_errors_loop cs = cs.any has_errors := by
  induction cs with
  | nil => simp [has_errors_loop]
  | cons c rest ih =>
    rw [has_errors_loop, ih, List.any_cons]
    cases has_errors c <;> simp

theorem has_errors_mk (p : Option Nat) (s : E) (es : List T) (cs : List (DiagnosticNode E T)) :
    has_errors (mk p s es cs) = (!es.isEmpty || cs.any has_errors) := by
  rw [has_errors, has_errors_loop_eq_any]
  cases es.isEmpty <;> simp

theorem has_errors_eq (n : DiagnosticNode E T) :
    has_errors n = (!n.errors.isEmpty || n.children.any has_errors) := by
  cases n with
  | mk p s es cs => simp [has_errors_mk, errors, children]

theorem mem_descendantsOfList (d : DiagnosticNode E T) (cs : List (DiagnosticNode E T)) :
    d ∈ descendantsOfList cs ↔ ∃ c ∈ cs, d = c ∨ d ∈ descendants c := by
  induction cs with
  | nil => simp [descendantsOfList]
  | cons c rest ih =>
    rw [descendantsOfList]
    simp only [List.mem_cons, List.mem_append, ih]
    constructor
    · rintro (h | h | ⟨c', hc', h⟩)
      · exact ⟨c, Or.inl rfl, Or.inl h⟩
      · exact ⟨c, Or.inl rfl, Or.inr h⟩
      · exact ⟨c', Or.inr hc', h⟩
    · rintro ⟨c', hc' | hc', h⟩
      · subst hc'
        rcases h with h | h
        · exact Or.inl h
        · exact Or.inr (Or.inl h)
      · exact Or.inr (Or.inr ⟨c', hc', h⟩)

theorem mem_descendants (d n : DiagnosticNode E T) :
    d ∈ descendants n ↔ ∃ c ∈ n.children, d = c ∨ d ∈ descendants c := by
  cases n with
  | mk p s es cs => rw [descendants, mem_descendantsOfList]; rfl

/-- The member `has_errors` holds exactly when the node or one of its descendants has a
non-empty `errors`. -/
theorem has_errors_iff_exists (n : DiagnosticNode E T) :
    has_errors n = true ↔ n.errors ≠ [] ∨ ∃ d ∈ descendants n, d.errors ≠ [] := by
  induction n using induct with
  | step p s es cs ih =>
    rw [has_errors_mk]
    simp only [Bool.or_eq_true, Bool.not_eq_true', List.isEmpty_eq_false, List.any_eq_true,
      errors, ne_eq]
    constructor
    · rintro (h | ⟨c, hc, h⟩)
      · exact Or.inl (by simpa using h)
      · right
        rcases (ih c hc).mp h with h' | ⟨d, hd, h'⟩
        · exact ⟨c, (mem_descendants c _).mpr ⟨c, hc, Or.inl rfl⟩, h'⟩
        · exact ⟨d, (mem_descendants d _).mpr ⟨c, hc, Or.inr hd⟩, h'⟩
    · rintro (h | ⟨d, hd, h⟩)
      · exact Or.inl (by simpa using h)
      · right
        obtain ⟨c, hc, hdc⟩ := (mem_descendants d _).mp hd
        refine ⟨c, hc, (ih c hc).mpr ?_⟩
        rcases hdc with hdc | hdc
        · exact Or.inl (hdc ▸ h)
        · exact Or.inr ⟨d, hdc, h⟩

theorem has_errors_of_nodeAt (p : List Nat) :
    ∀ (n d : DiagnosticNode E T), nodeAt n p = some d → d.errors ≠ [] → has_errors n = true := by
  induction p with
  | nil =>
    intro n d h hd
    simp only [nodeAt, Option.some.injEq] at h
    subst h
    exact (has_errors_iff_exists n).mpr (Or.inl hd)
  | cons i is ih =>
    intro n d h hd
    cases n with
    | mk p s es cs =>
      rw [nodeAt] at h
      cases hc : cs[i]? with
      | none => simp [hc] at h
      | some c =>
        simp only [hc] at h
        have hmem : c ∈ cs := List.getElem?_mem hc
        rw [has_errors_mk, Bool.or_eq_true, List.any_eq_true]
        exact Or.inr ⟨c, hmem, ih c d h hd⟩

theorem foldl_or_eq_any {α : Type} (f : α → Bool) (l : List α) (b : Bool) :
    l.foldl (fun acc d => acc || f d) b = (b || l.any f) := by
  induction l generalizing b with
  | nil => simp
  | cons a l ih => simp [ih, Bool.or_assoc]

theorem has_errors_eq_full (n : DiagnosticNode E T) : has_errors n = has_errors_full n := by
  rw [Bool.eq_iff_iff, has_errors_iff_exists, has_errors_full, foldl_or_eq_any]
  simp

theorem has_errors_permute {n n' : DiagnosticNode E T} (h : PermuteChildren n n') :
    has_errors n' = has_errors n := by
  induction h with
  | atNode p s es cs cs' hperm =>
    rw [has_errors_mk, has_errors_mk, Bool.eq_iff_iff]
    simp only [Bool.or_eq_true, List.any_eq_true]
    constructor
    · rintro (h | ⟨c, hc, h⟩)
      · exact Or.inl h
      · exact Or.inr ⟨c, hperm.mem_iff.mpr hc, h⟩
    · rintro (h | ⟨c, hc, h⟩)
      · exact Or.inl h
      · exact Or.inr ⟨c, hperm.mem_iff.mp hc, h⟩
  | inChild p s es l₁ l₂ c c' _ ih =>
    rw [has_errors_mk, has_errors_mk]
    simp [List.any_append, ih]

theorem has_errors_loop_call_eq (cs : List (DiagnosticNode E T))
    (h : ∀ c ∈ cs, has_errors_call c = (has_errors c, c)) :
    has_errors_loop_call cs = (has_errors_loop cs, cs) := by
  induction cs with
  | nil => simp [has_errors_loop_call, has_errors_loop]
  | cons c rest ih =>
    have hc := h c (List.mem_cons_self c rest)
    have hrest := ih (fun d hd => h d (List.mem_cons_of_mem c hd))
    rw [has_errors_loop_call, has_errors_loop]
    simp only [hc, hrest]
    cases has_errors c <;> simp

theorem has_errors_call_eq (n : DiagnosticNode E T) : has_errors_call n = (has_errors n, n) := by
  induction n using induct with
  | step p s es cs ih =>
    rw [has_errors_call, has_errors, has_errors_loop_call_eq cs ih]
    cases es.isEmpty <;> simp

/-- C1: `has_errors()` is true iff the node's own `errors` is non-empty or some
descendant, at any depth, has a non-empty `errors`; equivalently it is the OR
of "own `errors` non-empty" and "some child has errors". -/
theorem has_errors_iff_own_or_descendant (n : DiagnosticNode E T) :
    (has_errors n = true ↔ n.errors ≠ [] ∨ ∃ d ∈ descendants n, d.errors ≠ []) ∧
    has_errors n = (!n.errors.isEmpty || n.children.any has_errors) :=
  ⟨has_errors_iff_exists n, has_errors_eq n⟩

/-- C2: on a tree in which no node carries an error, the empty tree among
them, `has_errors()` is false. -/
theorem has_errors_false_of_no_error (n : DiagnosticNode E T)
    (hown : n.errors = []) (hdesc : ∀ d ∈ descendants n, d.errors = []) :
    has_errors n = false := by
  rw [← Bool.not_eq_true, has_errors_iff_exists]
  rintro (h | ⟨d, hd, h⟩)
  · exact h hown
  · exact h (hdesc d hd)

/-- Witness of C2 at the empty tree: no errors, no children. -/
theorem has_errors_false_of_no_error_witness :
    has_errors (mk none "" ([] : List ValidationError) []) = false :=
  has_errors_false_of_no_error (mk none "" [] []) rfl (by simp [descendants, descendantsOfList])

/-- C3: if a descendant at depth at least one, reached by the child-index path
`path`, holds exactly one error and every other node of the tree holds none,
`has_errors()` is true at the root. -/
theorem has_errors_of_single_descendant_error (n d : DiagnosticNode E T) (path : List Nat)
    (e : T) (_hdepth : 1 ≤ path.length) (hd : nodeAt n path = some d) (hone : d.errors = [e])
    (_hothers : ∀ q d', q ≠ path → nodeAt n q = some d' → d'.errors = []) :
    has_errors n = true :=
  has_errors_of_nodeAt path n d hd (by simp [hone])

/-- Witness of C3: the single error sits two levels below the root, in the
second child of the first child. -/
theorem has_errors_of_single_descendant_error_witness :
    has_errors
      (mk none "r" ([] : List ValidationError)
        [mk none "a" [] [mk none "b" [] [], mk none "c" [ValidationError.INVAL] []],
         mk none "d" [] []]) = true :=
  has_errors_of_single_descendant_error _ (mk none "c" [ValidationError.INVAL] []) [0, 1]
    ValidationError.INVAL (by decide) rfl rfl (by
      intro q d' hq hn
      match q, hq, hn with
      | [], _, hn => simp only [nodeAt, Option.some.injEq] at hn; subst hn; rfl
      | [0], _, hn => simp [nodeAt] at hn; subst hn; rfl
      | [1], _, hn => simp [nodeAt] at hn; subst hn; rfl
      | [0, 0], _, hn => simp [nodeAt] at hn; subst hn; rfl
      | [0, 1], hq, _ => exact absurd rfl hq
      | (0 :: 0 :: _ :: _), _, hn => simp [nodeAt] at hn
      | (0 :: 1 :: _ :: _), _, hn => simp [nodeAt] at hn
      | (0 :: (_ + 2) :: _), _, hn => simp [nodeAt] at hn
      | (1 :: _ :: _), _, hn => simp [nodeAt] at hn
      | ((_ + 2) :: _), _, hn => simp [nodeAt] at hn)

/-- C4: permuting the `children` vector of any node, at any depth, leaves
`has_errors()` at the root unchanged, and the short-circuiting loop returns
the boolean of a full OR over the whole subtree. -/
theorem has_errors_order_independent (n n' : DiagnosticNode E T) (h : PermuteChildren n n') :
    has_errors n' = has_errors n ∧ has_errors n = has_errors_full n ∧
      has_errors n' = has_errors_full n' :=
  ⟨has_errors_permute h, has_errors_eq_full n, has_errors_eq_full n'⟩

/-- Witness of C4: the two children of the first child of the root are
swapped. -/
theorem has_errors_order_independent_witness :
    PermuteChildren
      (mk none "r" ([] : List ValidationError)
        [mk none "a" [] [mk none "b" [] [], mk none "c" [ValidationError.INVAL] []],
         mk none "d" [] []])
      (mk none "r" ([] : List ValidationError)
        [mk none "a" [] [mk none "c" [ValidationError.INVAL] [], mk none "b" [] []],
         mk none "d" [] []]) ∧
    has_errors
      (mk none "r" ([] : List ValidationError)
        [mk none "a" [] [mk none "c" [ValidationError.INVAL] [], mk none "b" [] []],
         mk none "d" [] []]) =
    has_errors
      (mk none "r" ([] : List ValidationError)
        [mk none "a" [] [mk none "b" [] [], mk none "c" [ValidationError.INVAL] []],
         mk none "d" [] []]) :=
  have hp : PermuteChildren
      (mk none "r" ([] : List ValidationError)
        [mk none "a" [] [mk none "b" [] [], mk none "c" [ValidationError.INVAL] []],
         mk none "d" [] []])
      (mk none "r" ([] : List ValidationError)
        [mk none "a" [] [mk none "c" [ValidationError.INVAL] [], mk none "b" [] []],
         mk none "d" [] []]) :=
    PermuteChildren.inChild none "r" [] [] [mk none "d" [] []] _ _
      (PermuteChildren.atNode none "a" [] _ _ (List.Perm.swap _ _ []))
  ⟨hp, (has_errors_order_independent _ _ hp).1⟩

/-- C5: `has_errors()` is a pure predicate: the object it was called on is,
after the call, equal to what it was before (hence so are its `parent`,
`source`, `errors`, `children` and every descendant), and the value returned
is the one `has_errors` computes. -/
theorem has_errors_call_pure (n : DiagnosticNode E T) :
    (has_errors_call n).2 = n ∧
    (has_errors_call n).2.parent = n.parent ∧ (has_errors_call n).2.source = n.source ∧
    (has_errors_call n).2.errors = n.errors ∧ (has_errors_call n).2.children = n.children ∧
    descendants (has_errors_call n).2 = descendants n ∧
    (has_errors_call n).1 = has_errors n := by
  simp [has_errors_call_eq]

end ydk.path.DiagnosticNode

/-! ## Properties of `SchemaValueNumberType::validate` -/

namespace ydk.path

theorem digitRun_eq_foldl (ds : List Char) (h : ds.all isdigit = true) (acc : Nat) :
    digitRun acc ds = ds.foldl (fun a c => 10 * a + (c.toNat - 48)) acc := by
  induction ds generalizing acc with
  | nil => rfl
  | cons c cs ih =>
    simp only [List.all_cons, Bool.and_eq_true] at h
    rw [digitRun, if_pos h.1, ih h.2, List.foldl_cons, Nat.mul_comm]

theorem digitRun_eq_decimalDigitsValue (ds : List Char) (h : ds.all isdigit = true) :
    digitRun 0 ds = decimalDigitsValue ds :=
  digitRun_eq_foldl ds h 0

theorem takeWhile_nonzero_of_digits (ds : List Char) (h : ds.all isdigit = true) :
    ds.takeWhile (fun c => decide (c.toNat ≠ 0)) = ds := by
  rw [List.takeWhile_eq_self_iff]
  intro c hc
  have hd := List.all_eq_true.mp h c hc
  simp only [isdigit, Bool.and_eq_true, decide_eq_true_eq] at hd
  simp only [decide_eq_true_eq]
  omega

theorem skipSpace_of_digits (ds : List Char) (h : ds.all isdigit = true) :
    skipSpace ds = ds := by
  cases ds with
  | nil => rfl
  | cons c cs =>
    simp only [List.all_cons, Bool.and_eq_true, isdigit, decide_eq_true_eq] at h
    have : isspace c = false := by
      simp only [isspace, Bool.or_eq_false_iff, decide_eq_false_iff_not, Bool.and_eq_false_iff]
      omega
    rw [skipSpace, this]
    rfl

theorem strtollExact_c_str_eq_decimalValue (s : String) (h : isDecimalInteger s = true) :
    strtollExact (c_str s) = decimalValue s := by
  unfold isDecimalInteger at h
  unfold decimalValue c_str
  generalize s.data = l at h
  split at h
  · rename_i ds
    simp only [Bool.and_eq_true] at h
    rw [List.takeWhile_cons_of_pos (by decide), takeWhile_nonzero_of_digits ds h.2]
    simp [strtollExact, skipSpace, isspace, digitRun_eq_decimalDigitsValue ds h.2]
  · rename_i ds
    simp only [Bool.and_eq_true] at h
    rw [List.takeWhile_cons_of_pos (by decide), takeWhile_nonzero_of_digits ds h.2]
    simp [strtollExact, skipSpace, isspace, digitRun_eq_decimalDigitsValue ds h.2]
  · rename_i _ h1 h2
    simp only [Bool.and_eq_true] at h
    rw [takeWhile_nonzero_of_digits l h.2]
    unfold strtollExact
    rw [skipSpace_of_digits l h.2]
    split
    · exact absurd rfl (h1 _)
    · exact absurd rfl (h2 _)
    · rw [digitRun_eq_decimalDigitsValue l h.2]

theorem data_ne_nil_of_isDecimalInteger (s : String) (h : isDecimalInteger s = true) :
    s.data ≠ [] := by
  unfold isDecimalInteger at h
  intro hnil
  rw [hnil] at h
  simp at h

theorem atoll_eq_of_fits (nptr : List Char)
    (h : LLONG_MIN ≤ strtollExact nptr ∧ strtollExact nptr ≤ LLONG_MAX) :
    atoll nptr = strtollExact nptr := by
  unfold atoll
  simp only
  rw [if_neg (by omega), if_neg (by omega)]

theorem static_cast_eq_of_fits (T : NumberT) (v : Int)
    (h : T.minValue ≤ v ∧ v ≤ T.maxValue) : static_cast T v = v := by
  cases T <;>
    simp only [NumberT.minValue, NumberT.maxValue, NumberT.isSigned, NumberT.bits] at h <;>
    simp only [static_cast, NumberT.isSigned, NumberT.bits] <;>
    norm_num at h ⊢ <;> omega

/-- The number `validate` compares against the ranges, for a well-formed
decimal integer that fits in `T` and in `long long`, is the integer the text
denotes. -/
theorem number_eq_decimalValue (T : NumberT) (value : String)
    (hwf : isDecimalInteger value = true)
    (hT : T.minValue ≤ decimalValue value ∧ decimalValue value ≤ T.maxValue)
    (hLL : LLONG_MIN ≤ decimalValue value ∧ decimalValue value ≤ LLONG_MAX) :
    static_cast T (atoll (c_str value)) = decimalValue value := by
  have h := strtollExact_c_str_eq_decimalValue value hwf
  rw [atoll_eq_of_fits _ (by rw [h]; exact hLL), h, static_cast_eq_of_fits T _ hT]

namespace SchemaValueNumberType

theorem errors_push_error (diag : DiagnosticNode String ValidationError) (e : ValidationError) :
    (push_error diag e).errors = diag.errors ++ [e] := by
  cases diag with
  | mk p s es cs => rfl

theorem validate_intervals_eq (number : Int) (diag : DiagnosticNode String ValidationError)
    (rs : List Range) :
    validate_intervals number diag rs =
      if rs.any (fun r => decide (r.min ≤ number) && decide (number ≤ r.max)) then diag
      else push_error diag ValidationError.RANGE_VIOLATION := by
  induction rs with
  | nil => simp [validate_intervals]
  | cons r rest ih =>
    rw [validate_intervals, ih, List.any_cons]
    by_cases h : (decide (r.min ≤ number) && decide (number ≤ r.max)) = true
    · simp only [ge_iff_le, h, if_true, Bool.true_or]
    · simp only [ge_iff_le, h, Bool.false_or]
      simp

theorem validate_of_nonempty {T : NumberT} (self : SchemaValueNumberType T) (value : String)
    (h : value.data ≠ []) :
    validate self value =
      if self.range.intervals.isEmpty then
        if static_cast T (atoll (c_str value)) < self.range.default_range.min ||
            static_cast T (atoll (c_str value)) > self.range.default_range.max then
          DiagnosticNode.mk none "" [ValidationError.RANGE_VIOLATION] []
        else DiagnosticNode.mk none "" [] []
      else
        if self.range.intervals.any (fun r =>
            decide (r.min ≤ static_cast T (atoll (c_str value))) &&
            decide (static_cast T (atoll (c_str value)) ≤ r.max)) then
          DiagnosticNode.mk none "" [] []
        else DiagnosticNode.mk none "" [ValidationError.RANGE_VIOLATION] [] := by
  have hne : value.data.isEmpty = false := by
    cases hd : value.data with
    | nil => exact absurd hd h
    | cons c cs => rfl
  unfold validate
  simp only [hne, validate_intervals_eq, push_error, List.nil_append]
  rfl

/-- C6: with no explicit interval, a well-formed decimal integer whose value
`v` fits in `T` and in a signed 64-bit integer is accepted (empty `errors`)
iff `default_range.min ≤ v ≤ default_range.max`, and is otherwise reported
with exactly one error, `RANGE_VIOLATION`. -/
theorem validate_default_range_iff {T : NumberT} (self : SchemaValueNumberType T)
    (value : String) (hint : self.range.intervals = [])
    (hwf : isDecimalInteger value = true)
    (hT : T.minValue ≤ decimalValue value ∧ decimalValue value ≤ T.maxValue)
    (hLL : LLONG_MIN ≤ decimalValue value ∧ decimalValue value ≤ LLONG_MAX) :
    ((validate self value).errors = [] ↔
      (self.range.default_range.min ≤ decimalValue value ∧
        decimalValue value ≤ self.range.default_range.max)) ∧
    (¬(self.range.default_range.min ≤ decimalValue value ∧
        decimalValue value ≤ self.range.default_range.max) →
      (validate self value).errors = [ValidationError.RANGE_VIOLATION]) := by
  rw [validate_of_nonempty self value (data_ne_nil_of_isDecimalInteger value hwf),
    number_eq_decimalValue T value hwf hT hLL, hint]
  simp only [List.isEmpty_nil, if_true, Bool.or_eq_true, decide_eq_true_eq, gt_iff_lt]
  by_cases h : decimalValue value < self.range.default_range.min ∨
      self.range.default_range.max < decimalValue value
  · rw [if_pos h]
    refine ⟨⟨fun hc => ?_, fun hc => ?_⟩, fun _ => rfl⟩
    · exact absurd hc (by simp [DiagnosticNode.errors])
    · omega
  · rw [if_neg h]
    refine ⟨⟨fun _ => ?_, fun _ => rfl⟩, fun hc => ?_⟩
    · omega
    · omega

/-- Witness of C6: an unsigned 8-bit type with default range [0,10] accepts
"5" and reports `RANGE_VIOLATION` for "11". -/
theorem validate_default_range_iff_witness :
    ((new NumberT.uint8_t 0 10).validate "5").errors = [] ∧
    ((new NumberT.uint8_t 0 10).validate "11").errors = [ValidationError.RANGE_VIOLATION] :=
  ⟨(validate_default_range_iff (new NumberT.uint8_t 0 10) "5" rfl (by decide) (by decide)
      (by decide)).1.mpr (by decide),
   (validate_default_range_iff (new NumberT.uint8_t 0 10) "11" rfl (by decide) (by decide)
      (by decide)).2 (by decide)⟩

/-- C7 fails on the code at the unsigned 64-bit type: "9223372036854775808"
(2^63) is a well-formed decimal integer that fits in `uint64_t` and lies in
the only explicit interval, yet `validate` reports `RANGE_VIOLATION`, because
`atoll` returns a `long long` and yields `LLONG_MAX` for it. -/
theorem validate_explicit_interval_uint64_rejected :
    isDecimalInteger "9223372036854775808" = true ∧
    decimalValue "9223372036854775808" = 9223372036854775808 ∧
    NumberT.uint64_t.minValue ≤ decimalValue "9223372036854775808" ∧
    decimalValue "9223372036854775808" ≤ NumberT.uint64_t.maxValue ∧
    (validate
        ({ module_name := "", type := DataType.UINT64,
           range := { default_range := { min := 0, max := 18446744073709551615 },
                      intervals := [{ min := 9223372036854775808,
                                      max := 9223372036854775808 }] } } :
          SchemaValueNumberType NumberT.uint64_t)
        "9223372036854775808").errors = [ValidationError.RANGE_VIOLATION] := by
  decide

/-- The interval policy where the conversion is exact: with a non-empty list
of explicit intervals, a well-formed decimal integer whose value `v` fits in
`T` and in a signed 64-bit integer is accepted iff some interval `r` of the list has `r.min ≤ v ≤ r.max`, and is
otherwise reported with exactly one error, `RANGE_VIOLATION`; the result is
the same for every choice of `default_range`. -/
theorem validate_explicit_intervals_iff {T : NumberT} (self : SchemaValueNumberType T)
    (value : String) (hne : self.range.intervals ≠ [])
    (hwf : isDecimalInteger value = true)
    (hT : T.minValue ≤ decimalValue value ∧ decimalValue value ≤ T.maxValue)
    (hLL : LLONG_MIN ≤ decimalValue value ∧ decimalValue value ≤ LLONG_MAX) :
    ((validate self value).errors = [] ↔
      ∃ r ∈ self.range.intervals, r.min ≤ decimalValue value ∧ decimalValue value ≤ r.max) ∧
    (¬(∃ r ∈ self.range.intervals, r.min ≤ decimalValue value ∧ decimalValue value ≤ r.max) →
      (validate self value).errors = [ValidationError.RANGE_VIOLATION]) ∧
    (∀ d : Range,
      validate ({ self with range := { self.range with default_range := d } } :
          SchemaValueNumberType T) value = validate self value) := by
  have hdata := data_ne_nil_of_isDecimalInteger value hwf
  have hemp : self.range.intervals.isEmpty = false := by
    cases hi : self.range.intervals with
    | nil => exact absurd hi hne
    | cons r rs => rfl
  refine ⟨?_, ?_, ?_⟩
  · rw [validate_of_nonempty self value hdata, number_eq_decimalValue T value hwf hT hLL, hemp]
    simp only [Bool.false_eq_true, if_false]
    by_cases h : self.range.intervals.any (fun r =>
        decide (r.min ≤ decimalValue value) && decide (decimalValue value ≤ r.max)) = true
    · rw [if_pos h]
      simp only [List.any_eq_true, Bool.and_eq_true, decide_eq_true_eq] at h
      exact ⟨fun _ => h, fun _ => rfl⟩
    · rw [if_neg h]
      simp only [List.any_eq_true, Bool.and_eq_true, decide_eq_true_eq] at h
      constructor
      · intro hc; simp [DiagnosticNode.errors] at hc
      · intro hc; exact absurd hc h
  · intro h
    rw [validate_of_nonempty self value hdata, number_eq_decimalValue T value hwf hT hLL, hemp]
    simp only [Bool.false_eq_true, if_false]
    rw [if_neg]
    · rfl
    · simpa only [List.any_eq_true, Bool.and_eq_true, decide_eq_true_eq] using h
  · intro d
    rw [validate_of_nonempty self value hdata, validate_of_nonempty _ value hdata]
    simp only [hemp, Bool.false_eq_true, if_false]

/-- The interval policy at an unsigned 8-bit type with default range [0,10]
and explicit intervals [20,30] and [40,50]: it accepts "25", which is outside the
default range, and rejects "5", which is inside it. -/
theorem validate_explicit_intervals_iff_witness :
    (validate
        ({ module_name := "", type := DataType.UINT8,
           range := { default_range := { min := 0, max := 10 },
                      intervals := [{ min := 20, max := 30 }, { min := 40, max := 50 }] } } :
          SchemaValueNumberType NumberT.uint8_t) "25").errors = [] ∧
    (validate
        ({ module_name := "", type := DataType.UINT8,
           range := { default_range := { min := 0, max := 10 },
                      intervals := [{ min := 20, max := 30 }, { min := 40, max := 50 }] } } :
          SchemaValueNumberType NumberT.uint8_t) "5").errors =
      [ValidationError.RANGE_VIOLATION] :=
  ⟨(validate_explicit_intervals_iff _ "25" (by decide) (by decide) (by decide)
      (by decide)).1.mpr ⟨{ min := 20, max := 30 }, by decide, by decide⟩,
   (validate_explicit_intervals_iff _ "5" (by decide) (by decide) (by decide)
      (by decide)).2.1 (by decide)⟩

/-- C8: whatever the type, the default range and the explicit intervals,
`validate("")` returns a diagnostic whose `errors` is exactly `[INVALATTR]`,
never `RANGE_VIOLATION`. -/
theorem validate_empty_value {T : NumberT} (self : SchemaValueNumberType T) :
    (validate self "").errors = [ValidationError.INVALATTR] ∧
    ValidationError.RANGE_VIOLATION ∉ (validate self "").errors := by
  have h : validate self "" = DiagnosticNode.mk none "" [ValidationError.INVALATTR] [] := rfl
  rw [h]
  simp [DiagnosticNode.errors]

/-- C9 fails on the code: for the non-empty texts "abc", "5abc" and "1.5",
none of them a well-formed decimal integer, an unsigned 8-bit type with default
range [0,10] returns the diagnostic without any error; `atoll` reads them as
0, 5 and 1 and `INVALATTR` is not reported. -/
theorem validate_malformed_text_accepted :
    isDecimalInteger "abc" = false ∧ isDecimalInteger "5abc" = false ∧
    isDecimalInteger "1.5" = false ∧
    atoll (c_str "abc") = 0 ∧ atoll (c_str "5abc") = 5 ∧ atoll (c_str "1.5") = 1 ∧
    ((new NumberT.uint8_t 0 10).validate "abc").errors = [] ∧
    ((new NumberT.uint8_t 0 10).validate "5abc").errors = [] ∧
    ((new NumberT.uint8_t 0 10).validate "1.5").errors = [] := by
  decide

/-- C10 fails on the code: an unsigned 8-bit type with default range [0,255]
and no explicit interval accepts "256" and "-1", which denote integers outside
the default range; `static_cast` reduces them to 0 and 255 before the
comparison. -/
theorem validate_uint8_accepts_out_of_range :
    (new NumberT.uint8_t 0 255).range.intervals = [] ∧
    decimalValue "256" = 256 ∧ decimalValue "-1" = -1 ∧
    static_cast NumberT.uint8_t (atoll (c_str "256")) = 0 ∧
    static_cast NumberT.uint8_t (atoll (c_str "-1")) = 255 ∧
    ((new NumberT.uint8_t 0 255).validate "256").errors = [] ∧
    ((new NumberT.uint8_t 0 255).validate "-1").errors = [] := by
  decide

end SchemaValueNumberType

end ydk.path

/-! ## Properties of the error classes -/

namespace ydk

theorem c_str_eq_of_no_nul (msg : String) (h : ∀ c ∈ msg.data, c.toNat ≠ 0) :
    path.c_str msg = msg.data := by
  unfold path.c_str
  rw [List.takeWhile_eq_self_iff]
  intro c hc
  simpa using h c hc

/-- C11: an error object carries the sub-code it was constructed with:
`YCPPPathError(e).err == e` for every path error code and
`YCPPCodecError(c).err == c` for every codec error code, whatever message
`ly_errmsg()` supplies. -/
theorem error_carries_its_code :
    (∀ e : path.YCPPPathError.Error, (path.YCPPPathError.new e).err = e) ∧
    (∀ (ly_errmsg : String) (c : path.YCPPCodecError.Error),
      (path.YCPPCodecError.new ly_errmsg c).err = c) :=
  ⟨fun _ => rfl, fun _ _ => rfl⟩

/-- C12: for a message without NUL character, `what()` of an error
constructed from it is a C string equal to the message, for `YCPPError`,
`YCPPCoreError`, `YCPPIllegalStateError`, `YCPPInvalidArgumentError`,
`YCPPOperationNotSupportedError` and `YCPPModelError`. -/
theorem what_returns_message (msg : String) (hnul : ∀ c ∈ msg.data, c.toNat ≠ 0) :
    (YCPPError.new msg).what = msg.data ∧
    (path.YCPPCoreError.new msg).toYCPPError.what = msg.data ∧
    (YCPPIllegalStateError.new msg).toYCPPError.what = msg.data ∧
    (YCPPInvalidArgumentError.new msg).toYCPPError.what = msg.data ∧
    (YCPPOperationNotSupportedError.new msg).toYCPPError.what = msg.data ∧
    (YCPPModelError.new msg).toYCPPError.what = msg.data := by
  have h := c_str_eq_of_no_nul msg hnul
  exact ⟨h, h, h, h, h, h⟩

/-- Witness of C12 at the message "invalid path". -/
theorem what_returns_message_witness :
    (YCPPError.new "invalid path").what = "invalid path".data ∧
    (YCPPModelError.new "invalid path").toYCPPError.what = "invalid path".data :=
  have h := what_returns_message "invalid path" (by decide)
  ⟨h.1, h.2.2.2.2.2⟩

end ydk

/-! ## Termination of `has_errors`, shape of numeric diagnostics -/

namespace ydk.path.DiagnosticNode

variable {E T : Type}

theorem nodeCount_le_of_mem (cs : List (DiagnosticNode E T)) :
    ∀ c ∈ cs, nodeCount c ≤ (descendantsOfList cs).length := by
  induction cs with
  | nil => intro c hc; simp at hc
  | cons a rest ih =>
    intro c hc
    rw [descendantsOfList]
    simp only [List.length_cons, List.length_append]
    rcases List.mem_cons.mp hc with h | h
    · subst h
      unfold nodeCount
      omega
    · have := ih c h
      omega

theorem nodeCount_child_lt (n c : DiagnosticNode E T) (hc : c ∈ n.children) :
    nodeCount c < nodeCount n := by
  cases n with
  | mk p s es cs =>
    have h := nodeCount_le_of_mem cs c hc
    show nodeCount c < 1 + (descendants (mk p s es cs)).length
    rw [descendants]
    omega

theorem has_errors_loop_fuel_eq (fuel : Nat) (cs : List (DiagnosticNode E T))
    (h : ∀ c ∈ cs, has_errors_fuel fuel c = some (has_errors c)) :
    has_errors_loop_fuel fuel cs = some (has_errors_loop cs) := by
  induction cs with
  | nil => simp [has_errors_loop_fuel, has_errors_loop]
  | cons c rest ih =>
    have hc := h c (List.mem_cons_self c rest)
    have hrest := ih (fun d hd => h d (List.mem_cons_of_mem c hd))
    rw [has_errors_loop_fuel, has_errors_loop, hc]
    cases has_errors c <;> simp [hrest]

theorem has_errors_fuel_eq (n : DiagnosticNode E T) :
    ∀ fuel, nodeCount n ≤ fuel → has_errors_fuel fuel n = some (has_errors n) := by
  induction n using induct with
  | step p s es cs ih =>
    intro fuel hfuel
    have hcount : nodeCount (mk p s es cs) = 1 + (descendantsOfList cs).length := by
      unfold nodeCount
      rw [descendants]
    cases fuel with
    | zero => omega
    | succ f =>
      rw [has_errors_fuel, has_errors]
      rw [has_errors_loop_fuel_eq f cs (fun c hc => ih c hc f (by
        have := nodeCount_le_of_mem cs c hc
        omega))]
      cases es.isEmpty <;> simp

/-- C19: `has_errors()` terminates on every tree: every child is a strictly
smaller tree than its parent, and a run whose depth of nested calls is
bounded by the number of nodes of the tree (or by any larger number) returns
the value of `has_errors`. -/
theorem has_errors_terminates (n : DiagnosticNode E T) :
    (n.children.all fun c => decide (nodeCount c < nodeCount n)) = true ∧
    (∀ extra : Nat, has_errors_fuel (nodeCount n + extra) n = some (has_errors n)) := by
  refine ⟨?_, fun extra => has_errors_fuel_eq n _ (Nat.le_add_right _ _)⟩
  rw [List.all_eq_true]
  intro c hc
  exact decide_eq_true (nodeCount_child_lt n c hc)

end ydk.path.DiagnosticNode

namespace ydk.path.SchemaValueNumberType

/-- C20: the diagnostic returned by `validate` has no children, an empty
source, a null parent, and its `errors` is `[]`, `[INVALATTR]` or
`[RANGE_VIOLATION]`. -/
theorem validate_result_shape {T : NumberT} (self : SchemaValueNumberType T) (value : String) :
    (validate self value).children = [] ∧ (validate self value).source = "" ∧
    (validate self value).parent = none ∧
    ((validate self value).errors = [] ∨
      (validate self value).errors = [ValidationError.INVALATTR] ∨
      (validate self value).errors = [ValidationError.RANGE_VIOLATION]) := by
  by_cases hd : value.data = []
  · have h : validate self value = DiagnosticNode.mk none "" [ValidationError.INVALATTR] [] := by
      unfold validate
      simp [hd, push_error]
    rw [h]
    exact ⟨rfl, rfl, rfl, Or.inr (Or.inl rfl)⟩
  · rw [validate_of_nonempty self value hd]
    split
    · split
      · exact ⟨rfl, rfl, rfl, Or.inr (Or.inr rfl)⟩
      · exact ⟨rfl, rfl, rfl, Or.inl rfl⟩
    · split
      · exact ⟨rfl, rfl, rfl, Or.inl rfl⟩
      · exact ⟨rfl, rfl, rfl, Or.inr (Or.inr rfl)⟩

end ydk.path.SchemaValueNumberType

/-! ## Properties of the string and union types -/

namespace ydk.path.SchemaValueStringType

/-- C17: for a value whose length satisfies the length restriction,
`validate` returns no error iff the value matches every configured pattern,
and a value that violates any one pattern is reported with `INVALID_PATTERN`
whatever the other patterns say. -/
theorem validate_patterns_conjunction (regex_match : String → String → Bool)
    (self : SchemaValueStringType) (value : String) (hlen : length_ok self value = true) :
    ((validate regex_match self value).errors = [] ↔
      ∀ p ∈ self.patterns, regex_match p value = true) ∧
    (∀ p ∈ self.patterns, regex_match p value = false →
      ValidationError.INVALID_PATTERN ∈ (validate regex_match self value).errors) := by
  unfold validate
  simp only [hlen, if_true, List.nil_append, DiagnosticNode.errors]
  by_cases h : self.patterns.all (fun p => regex_match p value) = true
  · rw [if_pos h]
    rw [List.all_eq_true] at h
    refine ⟨⟨fun _ => h, fun _ => rfl⟩, fun p hp hf => ?_⟩
    rw [h p hp] at hf
    exact absurd hf (by decide)
  · rw [if_neg h]
    refine ⟨⟨fun hc => ?_, fun hall => ?_⟩, fun _ _ _ => List.mem_singleton.mpr rfl⟩
    · exact absurd hc (by simp)
    · exact absurd (List.all_eq_true.mpr hall) h

/-- Witness of C17: lengths 0 to 10, the stand-in matcher "every character of
the pattern occurs in the value"; "abc" matches both "a" and "cb" and is
accepted, and is reported with `INVALID_PATTERN` under the patterns "a" and
"z". -/
theorem validate_patterns_conjunction_witness :
    (validate (fun p v => p.data.all (fun c => v.data.contains c))
      { module_name := "", type := DataType.STRING,
        length := LengthRangeIntervals.new { min := 0, max := 10 },
        patterns := ["a", "cb"] } "abc").errors = [] ∧
    ValidationError.INVALID_PATTERN ∈
      (validate (fun p v => p.data.all (fun c => v.data.contains c))
        { module_name := "", type := DataType.STRING,
          length := LengthRangeIntervals.new { min := 0, max := 10 },
          patterns := ["a", "z"] } "abc").errors :=
  ⟨(validate_patterns_conjunction _ _ "abc" (by decide)).1.mpr (by decide),
   (validate_patterns_conjunction _ _ "abc" (by decide)).2 "z" (by decide) (by decide)⟩

end ydk.path.SchemaValueStringType

namespace ydk.path.SchemaValueUnionType

/-- A diagnostic without errors has an empty `errors` of its own. -/
theorem errors_nil_of_has_errors_false (d : DiagnosticNode String ValidationError)
    (h : d.has_errors = false) : d.errors = [] := by
  cases d with
  | mk p s es cs =>
    rw [DiagnosticNode.has_errors_mk] at h
    cases es with
    | nil => rfl
    | cons e rest => simp at h

theorem validate_accepts_iff (failure : ValidationError) (self : SchemaValueUnionType)
    (value : String) :
    ((validate failure self value).has_errors = false ↔
      ∃ t ∈ self.types, (t value).has_errors = false) ∧
    ((validate failure self value).errors = [] ↔
      ∃ t ∈ self.types, (t value).has_errors = false) := by
  unfold validate
  cases hf : (self.types.map (fun t => t value)).find? (fun d => !d.has_errors) with
  | some d =>
    have hd := List.find?_some hf
    have hmem := List.mem_of_find?_eq_some hf
    obtain ⟨t, ht, rfl⟩ := List.mem_map.mp hmem
    simp only [Bool.not_eq_true'] at hd
    exact ⟨⟨fun _ => ⟨t, ht, hd⟩, fun _ => hd⟩,
      ⟨fun _ => ⟨t, ht, hd⟩, fun _ => errors_nil_of_has_errors_false _ hd⟩⟩
  | none =>
    rw [List.find?_eq_none] at hf
    have hall : ∀ t ∈ self.types, (t value).has_errors = true := by
      intro t ht
      have := hf (t value) (List.mem_map.mpr ⟨t, ht, rfl⟩)
      simpa using this
    have hnone : ¬ ∃ t ∈ self.types, (t value).has_errors = false := by
      rintro ⟨t, ht, h⟩
      rw [hall t ht] at h
      exact absurd h (by decide)
    constructor
    · constructor
      · intro h
        rw [DiagnosticNode.has_errors_mk] at h
        simp at h
      · intro h; exact absurd h hnone
    · constructor
      · intro h
        simp [DiagnosticNode.errors] at h
      · intro h; exact absurd h hnone

/-- C18: for every union and every value, `validate` returns a diagnostic
without errors (`has_errors()` false; equivalently an empty `errors`) iff at
least one member type's `validate` returns a diagnostic without errors for
that value, whatever the order of the member types and whatever the code of
the error a rejected value is reported with. -/
theorem validate_union_iff_some_member (failure : ValidationError)
    (self : SchemaValueUnionType) (value : String) :
    ((validate failure self value).has_errors = false ↔
      ∃ t ∈ self.types, (t value).has_errors = false) ∧
    ((validate failure self value).errors = [] ↔
      ∃ t ∈ self.types, (t value).has_errors = false) ∧
    (∀ types' : List (String → DiagnosticNode String ValidationError),
      types'.Perm self.types →
      (validate failure { self with types := types' } value).has_errors =
        (validate failure self value).has_errors) := by
  refine ⟨(validate_accepts_iff failure self value).1,
    (validate_accepts_iff failure self value).2, fun types' hperm => ?_⟩
  have h1 := (validate_accepts_iff failure { self with types := types' } value).1
  have h2 := (validate_accepts_iff failure self value).1
  have hiff : (validate failure { self with types := types' } value).has_errors = false ↔
      (validate failure self value).has_errors = false := by
    rw [h1, h2]
    constructor
    · rintro ⟨t, ht, h⟩; exact ⟨t, hperm.mem_iff.mp ht, h⟩
    · rintro ⟨t, ht, h⟩; exact ⟨t, hperm.mem_iff.mpr ht, h⟩
  cases ha : (validate failure { self with types := types' } value).has_errors <;>
    cases hb : (validate failure self value).has_errors <;> simp_all

/-- Witness of C18: a union of an unsigned 8-bit type with range [0,10] and a
signed 8-bit type with range [-5,-1] accepts "-3", which the second member
accepts, also with the members in the other order; the union without member
types rejects every value. -/
theorem validate_union_iff_some_member_witness :
    (validate ValidationError.INVAL
      { module_name := "", type := DataType.UNION,
        types := [(SchemaValueNumberType.new NumberT.uint8_t 0 10).validate,
                  (SchemaValueNumberType.new NumberT.int8_t (-5) (-1)).validate] }
      "-3").has_errors = false ∧
    (validate ValidationError.INVAL
      { module_name := "", type := DataType.UNION,
        types := [(SchemaValueNumberType.new NumberT.int8_t (-5) (-1)).validate,
                  (SchemaValueNumberType.new NumberT.uint8_t 0 10).validate] }
      "-3").has_errors = false ∧
    (validate ValidationError.INVAL
      { module_name := "", type := DataType.UNION, types := [] } "-3").has_errors = true :=
  have hacc := (validate_union_iff_some_member ValidationError.INVAL
      { module_name := "", type := DataType.UNION,
        types := [(SchemaValueNumberType.new NumberT.uint8_t 0 10).validate,
                  (SchemaValueNumberType.new NumberT.int8_t (-5) (-1)).validate] } "-3").1.mpr
    ⟨(SchemaValueNumberType.new NumberT.int8_t (-5) (-1)).validate, by simp, by decide⟩
  ⟨hacc,
   ((validate_union_iff_some_member ValidationError.INVAL
      { module_name := "", type := DataType.UNION,
        types := [(SchemaValueNumberType.new NumberT.uint8_t 0 10).validate,
                  (SchemaValueNumberType.new NumberT.int8_t (-5) (-1)).validate] } "-3").2.2
      [(SchemaValueNumberType.new NumberT.int8_t (-5) (-1)).validate,
       (SchemaValueNumberType.new NumberT.uint8_t 0 10).validate]
      (List.Perm.swap _ _ [])).trans hacc,
   by decide⟩

end ydk.path.SchemaValueUnionType

/-! ## Properties of the path engine -/

namespace ydk.path

theorem qualify_cons_some (inherited : Option String) (seg : Segment) (rest : List Segment)
    (m : String) (h : seg.module_name = some m) :
    qualify inherited (seg :: rest) =
      match qualify (some m) rest with
      | .ok qs => .ok ({ module_name := m, name := seg.name, predicates := seg.predicates } :: qs)
      | .error e => .error e := by
  rw [qualify, effective_module, h]

theorem qualify_cons_none (m : String) (seg : Segment) (rest : List Segment)
    (h : seg.module_name = none) :
    qualify (some m) (seg :: rest) =
      match qualify (some m) rest with
      | .ok qs => .ok ({ module_name := m, name := seg.name, predicates := seg.predicates } :: qs)
      | .error e => .error e := by
  rw [qualify, effective_module, h]

theorem qualify_none_cons_none (seg : Segment) (rest : List Segment)
    (h : seg.module_name = none) :
    qualify none (seg :: rest) = .error (path_error YCPPPathError.Error.PATH_MISSMOD) := by
  rw [qualify, effective_module, h]

/-- With a module to inherit, module resolution succeeds. -/
theorem qualify_some_ok (path : List Segment) :
    ∀ m : String, ∃ qs, qualify (some m) path = .ok qs := by
  induction path with
  | nil => intro m; exact ⟨[], rfl⟩
  | cons seg rest ih =>
    intro m
    cases hm : seg.module_name with
    | none =>
      obtain ⟨qs, hqs⟩ := ih m
      exact ⟨_, by rw [qualify_cons_none m seg rest hm, hqs]⟩
    | some m' =>
      obtain ⟨qs, hqs⟩ := ih m'
      exact ⟨_, by rw [qualify_cons_some _ seg rest m' hm, hqs]⟩

/-- A segment inherits the given module when no segment up to it has one. -/
theorem qualify_inherits (path : List Segment) :
    ∀ (m : String) (qs : List QualifiedSegment), qualify (some m) path = .ok qs →
      ∀ (i : Nat) (si : Segment), path[i]? = some si →
        (∀ (k : Nat) (sk : Segment), k ≤ i → path[k]? = some sk → sk.module_name = none) →
        ∃ q, qs[i]? = some q ∧ q.module_name = m := by
  induction path with
  | nil => intro m qs _ i si hi; simp at hi
  | cons seg rest ih =>
    intro m qs hq i si hi hnone
    have hseg : seg.module_name = none := hnone 0 seg (Nat.zero_le i) (by simp)
    rw [qualify_cons_none m seg rest hseg] at hq
    cases hr : qualify (some m) rest with
    | error e => rw [hr] at hq; cases hq
    | ok qs' =>
      rw [hr] at hq
      simp only [Except.ok.injEq] at hq
      subst hq
      cases i with
      | zero => exact ⟨_, List.getElem?_cons_zero, rfl⟩
      | succ i' =>
        simp only [List.getElem?_cons_succ] at hi ⊢
        exact ih m qs' hr i' si hi (fun k sk hk hsk =>
          hnone (k + 1) sk (Nat.succ_le_succ hk) (by simpa using hsk))

/-- A segment is resolved in the module of the nearest segment, at or before
it, that carries one. -/
theorem qualify_nearest (path : List Segment) :
    ∀ (inherited : Option String) (qs : List QualifiedSegment),
      qualify inherited path = .ok qs →
      ∀ (i j : Nat) (si sj : Segment) (m : String), j ≤ i → path[i]? = some si →
        path[j]? = some sj → sj.module_name = some m →
        (∀ (k : Nat) (sk : Segment), j < k → k ≤ i → path[k]? = some sk →
          sk.module_name = none) →
        ∃ q, qs[i]? = some q ∧ q.module_name = m := by
  induction path with
  | nil => intro inh qs _ i j si sj m _ hi; simp at hi
  | cons seg rest ih =>
    intro inh qs hq i j si sj m hji hi hj hm hnone
    cases j with
    | zero =>
      simp only [List.getElem?_cons_zero, Option.some.injEq] at hj
      subst hj
      rw [qualify_cons_some inh seg rest m hm] at hq
      cases hr : qualify (some m) rest with
      | error e => rw [hr] at hq; cases hq
      | ok qs' =>
        rw [hr] at hq
        simp only [Except.ok.injEq] at hq
        subst hq
        cases i with
        | zero => exact ⟨_, List.getElem?_cons_zero, rfl⟩
        | succ i' =>
          simp only [List.getElem?_cons_succ] at hi ⊢
          exact qualify_inherits rest m qs' hr i' si hi (fun k sk hk hsk =>
            hnone (k + 1) sk (Nat.succ_pos k) (Nat.succ_le_succ hk) (by simpa using hsk))
    | succ j' =>
      cases i with
      | zero => omega
      | succ i' =>
        simp only [List.getElem?_cons_succ] at hi hj
        have hstep : ∀ (inh' : Option String) (qs' : List QualifiedSegment),
            qualify inh' rest = .ok qs' → ∃ q, qs'[i']? = some q ∧ q.module_name = m :=
          fun inh' qs' hr => ih inh' qs' hr i' j' si sj m (Nat.le_of_succ_le_succ hji) hi hj hm
            (fun k sk hjk hki hsk => hnone (k + 1) sk (Nat.succ_lt_succ hjk)
              (Nat.succ_le_succ hki) (by simpa using hsk))
        unfold qualify at hq
        split at hq
        · cases hq
        · rename_i m0 _
          cases hr : qualify (some m0) rest with
          | error e => rw [hr] at hq; cases hq
          | ok qs' =>
            rw [hr] at hq
            simp only [Except.ok.injEq] at hq
            subst hq
            simp only [List.getElem?_cons_succ]
            exact hstep _ qs' hr

theorem matching_sound (p : DataNode → Bool) (cs : List DataNode) :
    ∀ (start i : Nat) (c : DataNode), (i, c) ∈ matching p start cs →
      start ≤ i ∧ cs[i - start]? = some c ∧ p c = true := by
  induction cs with
  | nil => intro start i c h; simp [matching] at h
  | cons a rest ih =>
    intro start i c h
    rw [matching] at h
    have hrest : (i, c) ∈ matching p (start + 1) rest →
        start ≤ i ∧ (a :: rest)[i - start]? = some c ∧ p c = true := by
      intro h'
      obtain ⟨h1, h2, h3⟩ := ih (start + 1) i c h'
      refine ⟨by omega, ?_, h3⟩
      have heq : i - start = (i - (start + 1)) + 1 := by omega
      rw [heq, List.getElem?_cons_succ]
      exact h2
    split at h
    · rename_i hpa
      rcases List.mem_cons.mp h with h' | h'
      · simp only [Prod.mk.injEq] at h'
        obtain ⟨rfl, rfl⟩ := h'
        exact ⟨Nat.le_refl _, by simp, hpa⟩
      · exact hrest h'
    · exact hrest h

theorem children_with_children (n : DataNode) (cs : List DataNode) :
    (n.with_children cs).children = cs := by
  cases n; rfl

/-- C16: a path whose first segment carries no module prefix fails against the
root, in resolution and in creation, with the path error `PATH_MISSMOD`; when
the first segment carries one, every segment is resolved in the module of the
nearest segment, at or before it, that carries a prefix. -/
theorem module_prefix_rule (root : RootData) (seg : Segment) (rest : List Segment)
    (value : String) :
    (seg.module_name = none →
      root.find (seg :: rest) = .error (path_error YCPPPathError.Error.PATH_MISSMOD) ∧
      root.create (seg :: rest) value =
        .error (path_error YCPPPathError.Error.PATH_MISSMOD) ∧
      (path_error YCPPPathError.Error.PATH_MISSMOD).err = YCPPPathError.Error.PATH_MISSMOD) ∧
    (∀ m : String, seg.module_name = some m →
      ∃ qs, qualify none (seg :: rest) = .ok qs ∧
        root.find (seg :: rest) = .ok (find_walk qs root.children) ∧
        ∀ (i j : Nat) (si sj : Segment) (m' : String), j ≤ i →
          (seg :: rest)[i]? = some si → (seg :: rest)[j]? = some sj →
          sj.module_name = some m' →
          (∀ (k : Nat) (sk : Segment), j < k → k ≤ i → (seg :: rest)[k]? = some sk →
            sk.module_name = none) →
          ∃ q, qs[i]? = some q ∧ q.module_name = m') := by
  constructor
  · intro hnone
    have hq := qualify_none_cons_none seg rest hnone
    refine ⟨?_, ?_, rfl⟩
    · unfold RootData.find
      rw [hq]
    · unfold RootData.create
      rw [hq]
  · intro m hm
    obtain ⟨qs', hqs'⟩ := qualify_some_ok rest m
    have hq : qualify none (seg :: rest) =
        .ok ({ module_name := m, name := seg.name, predicates := seg.predicates } :: qs') := by
      rw [qualify_cons_some none seg rest m hm, hqs']
    refine ⟨_, hq, ?_, ?_⟩
    · unfold RootData.find
      rw [hq]
    · intro i j si sj m' hji hi hj hm' hnone
      exact qualify_nearest (seg :: rest) none _ hq i j si sj m' hji hi hj hm' hnone

/-- Witness of C16: `c/x` without module prefix fails with `PATH_MISSMOD`, and
in `/M:c/x` the segment `x` is resolved in module `M`. -/
theorem module_prefix_rule_witness :
    scenario_root.find [{ module_name := none, name := "c", predicates := [] },
        { module_name := none, name := "x", predicates := [] }] =
      .error (path_error YCPPPathError.Error.PATH_MISSMOD) ∧
    ∃ qs, qualify none scenario_path = .ok qs ∧ ∃ q, qs[1]? = some q ∧ q.module_name = "M" :=
  ⟨((module_prefix_rule scenario_root { module_name := none, name := "c", predicates := [] }
      [{ module_name := none, name := "x", predicates := [] }] "5").1 rfl).1,
   match (module_prefix_rule scenario_root { module_name := some "M", name := "c", predicates := [] }
      [{ module_name := none, name := "x", predicates := [] }] "5").2 "M" rfl with
   | ⟨qs, hq, _, hnear⟩ =>
     ⟨qs, hq, hnear 1 0 { module_name := none, name := "x", predicates := [] }
       { module_name := some "M", name := "c", predicates := [] } "M" (by decide) rfl rfl rfl
       (fun k sk hjk hki hsk => by
         have hk : k = 1 := by omega
         subst hk
         simp only [List.getElem?_cons_succ, List.getElem?_cons_zero, Option.some.injEq] at hsk
         subst hsk
         rfl)⟩⟩

theorem matching_append_single (p : DataNode → Bool) (n : DataNode) (cs : List DataNode) :
    ∀ start : Nat, matching p start (cs ++ [n]) =
      matching p start cs ++ (if p n then [(start + cs.length, n)] else []) := by
  induction cs with
  | nil =>
    intro start
    simp only [List.nil_append, matching, List.length_nil, Nat.add_zero]
  | cons a rest ih =>
    intro start
    have hlen : start + 1 + rest.length = start + (a :: rest).length := by
      simp only [List.length_cons]; omega
    rw [List.cons_append, matching, matching, ih (start + 1), hlen]
    split <;> rfl

theorem matching_set (p : DataNode → Bool) (c' : DataNode) (hp : p c' = true)
    (cs : List DataNode) :
    ∀ (start i : Nat) (c : DataNode), matching p start cs = [(i, c)] →
      matching p start (cs.set (i - start) c') = [(i, c')] := by
  induction cs with
  | nil => intro start i c h; simp [matching] at h
  | cons a rest ih =>
    intro start i c h
    rw [matching] at h
    split at h
    · simp only [List.cons.injEq, Prod.mk.injEq] at h
      obtain ⟨⟨rfl, rfl⟩, hrest⟩ := h
      simp only [Nat.sub_self, List.set_cons_zero, matching, hp, if_true, hrest]
    · rename_i hpa
      have hs := matching_sound p rest (start + 1) i c (by rw [h]; exact List.mem_singleton.mpr rfl)
      have heq : i - start = (i - (start + 1)) + 1 := by omega
      rw [heq, List.set_cons_succ, matching, if_neg hpa]
      exact ih (start + 1) i c h

theorem schema_with_children (n : DataNode) (cs : List DataNode) :
    (n.with_children cs).schema = n.schema := by
  cases n; rfl

theorem schema_set_terminal (v : String) (n : DataNode) : (set_terminal v n).schema = n.schema := by
  cases n
  unfold set_terminal
  split <;> rfl

theorem children_set_terminal (v : String) (n : DataNode) :
    (set_terminal v n).children = n.children := by
  cases n
  unfold set_terminal
  split <;> rfl

theorem set_terminal_again (v : String) (n : DataNode) (cs : List DataNode) :
    set_terminal v ((set_terminal v n).with_children cs) = (set_terminal v n).with_children cs := by
  cases n with
  | mk s v0 a cs0 =>
    unfold set_terminal
    simp only [DataNode.schema]
    by_cases h : s.has_value = true
    · simp [h, DataNode.with_value, DataNode.with_children, DataNode.schema]
    · simp [h, DataNode.with_children, DataNode.schema]

theorem with_children_again (n : DataNode) (cs cs' : List DataNode) :
    (n.with_children cs).with_children cs' = n.with_children cs' := by
  cases n; rfl

theorem count_with_children (n : DataNode) (cs : List DataNode) :
    (n.with_children cs).count = 1 + count_nodes cs := by
  cases n
  simp [DataNode.with_children, DataNode.count]

theorem matches_node_of_schema (st : Step) (hk : st.key_values = []) (n n' : DataNode)
    (h : n.schema = n'.schema) : st.matches_node n = st.matches_node n' := by
  simp [Step.matches_node, hk, DataNode.name, h]

theorem matches_node_new_node (st : Step) (hk : st.key_values = []) :
    st.matches_node st.new_node = true := by
  simp [Step.matches_node, hk, DataNode.name, Step.new_node, DataNode.schema]

theorem count_nodes_append_single (cs : List DataNode) (n : DataNode) :
    count_nodes (cs ++ [n]) = count_nodes cs + n.count := by
  induction cs with
  | nil => simp [count_nodes]
  | cons a rest ih => rw [List.cons_append, count_nodes, count_nodes, ih]; omega

theorem count_nodes_set (cs : List DataNode) :
    ∀ (i : Nat) (c c' : DataNode), cs[i]? = some c → c'.count = c.count →
      count_nodes (cs.set i c') = count_nodes cs := by
  induction cs with
  | nil => intro i c c' h; simp at h
  | cons a rest ih =>
    intro i c c' h hc
    cases i with
    | zero =>
      simp only [List.getElem?_cons_zero, Option.some.injEq] at h
      subst h
      simp only [List.set_cons_zero, count_nodes, hc]
    | succ i' =>
      simp only [List.getElem?_cons_succ] at h
      simp only [List.set_cons_succ, count_nodes, ih i' c c' h hc]

theorem set_of_getElem? (cs : List DataNode) :
    ∀ (i : Nat) (c : DataNode), cs[i]? = some c → cs.set i c = cs := by
  induction cs with
  | nil => intro i c h; simp at h
  | cons a rest ih =>
    intro i c h
    cases i with
    | zero =>
      simp only [List.getElem?_cons_zero, Option.some.injEq] at h
      subst h
      rfl
    | succ i' =>
      simp only [List.getElem?_cons_succ] at h
      simp only [List.set_cons_succ, ih i' c h]

/-- What a successful creation step leaves behind: in the new children exactly
one child matches the step, at the index returned, and below it the rest of
the walk has been done. -/
theorem create_walk_cons_shape (v : String) (st : Step) (rest : List Step)
    (hk : st.key_values = []) (cs cs' : List DataNode) (p : List Nat)
    (h : create_walk v (st :: rest) cs = .ok (cs', p)) :
    ∃ (idx : Nat) (base : DataNode) (cs2 : List DataNode) (p2 : List Nat),
      p = idx :: p2 ∧
      matching st.matches_node 0 cs' =
        [(idx, (if rest.isEmpty then set_terminal v base else base).with_children cs2)] ∧
      cs'[idx]? = some ((if rest.isEmpty then set_terminal v base else base).with_children cs2) ∧
      create_walk v rest (if rest.isEmpty then set_terminal v base else base).children =
        .ok (cs2, p2) := by
  rw [create_walk] at h
  split at h
  · rename_i hm
    by_cases hmk : st.missing_key = true
    · rw [if_pos hmk] at h; cases h
    · rw [if_neg hmk] at h
      simp only at h
      split at h
      · rename_i cs2 p2 hinner
        simp only [Except.ok.injEq, Prod.mk.injEq] at h
        obtain ⟨rfl, rfl⟩ := h
        refine ⟨cs.length, st.new_node, cs2, p2, rfl, ?_, by simp, hinner⟩
        rw [matching_append_single, hm]
        have hmatch : st.matches_node
            ((if rest.isEmpty then set_terminal v st.new_node else st.new_node).with_children
              cs2) = true := by
          rw [matches_node_of_schema st hk _ st.new_node, matches_node_new_node st hk]
          rw [schema_with_children]
          split
          · exact schema_set_terminal v _
          · rfl
        simp [hmatch]
      · cases h
  · rename_i i c hm
    simp only at h
    split at h
    · rename_i cs2 p2 hinner
      simp only [Except.ok.injEq, Prod.mk.injEq] at h
      obtain ⟨rfl, rfl⟩ := h
      have hs := matching_sound st.matches_node cs 0 i c
        (by rw [hm]; exact List.mem_singleton.mpr rfl)
      have hlt : i < cs.length := by
        have := hs.2.1
        simp only [Nat.sub_zero] at this
        exact (List.getElem?_eq_some_iff.mp this).1
      have hmatch : st.matches_node
          ((if rest.isEmpty then set_terminal v c else c).with_children cs2) = true := by
        rw [matches_node_of_schema st hk _ c, hs.2.2]
        rw [schema_with_children]
        split
        · exact schema_set_terminal v _
        · rfl
      refine ⟨i, c, cs2, p2, rfl, ?_, List.getElem?_set_self hlt, hinner⟩
      have := matching_set st.matches_node _ hmatch cs 0 i c hm
      simpa using this
    · cases h
  · cases h

/-- A second `create_walk` along non-list steps, on the children the first
one returned: it ends at the same position and adds no node; with the same
value it leaves the children as they are. -/
theorem create_walk_again (v v2 : String) (steps : List Step) :
    (∀ st ∈ steps, st.key_values = []) →
    ∀ (cs cs' : List DataNode) (p : List Nat), create_walk v steps cs = .ok (cs', p) →
      ∃ cs'', create_walk v2 steps cs' = .ok (cs'', p) ∧
        count_nodes cs'' = count_nodes cs' ∧ (v2 = v → cs'' = cs') := by
  induction steps with
  | nil =>
    intro _ cs cs' p h
    simp only [create_walk, Except.ok.injEq, Prod.mk.injEq] at h
    obtain ⟨rfl, rfl⟩ := h
    exact ⟨cs, rfl, rfl, fun _ => rfl⟩
  | cons st rest ih =>
    intro hk cs cs' p h
    have hkst : st.key_values = [] := hk st (List.mem_cons_self _ _)
    have hkrest : ∀ s ∈ rest, s.key_values = [] := fun s hs => hk s (List.mem_cons_of_mem _ hs)
    obtain ⟨idx, base, cs2, p2, rfl, hm, hget, hinner⟩ :=
      create_walk_cons_shape v st rest hkst cs cs' p h
    obtain ⟨cs2'', hw2, hcount2, heq2⟩ := ih hkrest _ cs2 p2 hinner
    have hchildren : (if rest.isEmpty then
          set_terminal v2 ((if rest.isEmpty then set_terminal v base else base).with_children cs2)
        else (if rest.isEmpty then set_terminal v base else base).with_children cs2).children =
        cs2 := by
      split
      · rw [children_set_terminal, children_with_children]
      · rw [children_with_children]
    refine ⟨cs'.set idx ((if rest.isEmpty then
          set_terminal v2 ((if rest.isEmpty then set_terminal v base else base).with_children cs2)
        else (if rest.isEmpty then set_terminal v base else base).with_children cs2).with_children
          cs2''), ?_, ?_, ?_⟩
    · rw [create_walk]
      simp only [hm, hchildren, hw2]
    · apply count_nodes_set cs' idx _ _ hget
      rw [count_with_children, count_with_children, hcount2]
    · intro hv
      subst hv
      rw [heq2 rfl]
      have hnode : (if rest.isEmpty then
            set_terminal v2
              ((if rest.isEmpty then set_terminal v2 base else base).with_children cs2)
          else (if rest.isEmpty then set_terminal v2 base else base).with_children cs2).with_children
            cs2 = (if rest.isEmpty then set_terminal v2 base else base).with_children cs2 := by
        by_cases he : rest.isEmpty = true
        · simp only [he, if_true]
          rw [set_terminal_again, with_children_again]
        · simp only [he]
          exact with_children_again _ _ _
      rw [hnode]
      exact set_of_getElem? cs' idx _ hget

theorem resolve_key_values (qs : List QualifiedSegment) :
    ∀ (top : List SchemaNode) (steps : List Step), resolve top qs = .ok steps →
      ∀ st ∈ steps, st.schema.is_list = false → st.key_values = [] := by
  induction qs with
  | nil =>
    intro top steps h st hst
    simp only [resolve, Except.ok.injEq] at h
    subst h
    simp at hst
  | cons q rest ih =>
    intro top steps h st hst hnl
    rw [resolve] at h
    split at h
    · cases h
    · rename_i s _
      split at h
      · cases h
      · cases hr : resolve s.children rest with
        | error e => rw [hr] at h; cases h
        | ok steps0 =>
          rw [hr] at h
          simp only [Except.ok.injEq] at h
          subst h
          rcases List.mem_cons.mp hst with hst' | hst'
          · subst hst'
            simp only at hnl
            simp [hnl]
          · exact ih s.children steps0 hr st hst' hnl

/-- C14: container creation is idempotent: when every segment of the path
names a non-list node, a second `create` with that path, on the tree the
first one returned, returns the same node and adds no node to the tree,
whatever the value it is given; given the same value it leaves the tree as it
is. -/
theorem create_non_list_idempotent (root root' : RootData) (path : List Segment)
    (value value2 : String) (p : List Nat) (qs : List QualifiedSegment) (steps : List Step)
    (hq : qualify none path = .ok qs)
    (hres : resolve root.schema.children qs = .ok steps)
    (hnonlist : ∀ st ∈ steps, st.schema.is_list = false)
    (h : root.create path value = .ok (root', p)) :
    root'.create path value = .ok (root', p) ∧
    ∃ root'', root'.create path value2 = .ok (root'', p) ∧
      root''.node_count = root'.node_count := by
  have hk : ∀ st ∈ steps, st.key_values = [] := fun st hst =>
    resolve_key_values qs root.schema.children steps hres st hst (hnonlist st hst)
  unfold RootData.create at h
  simp only [hq, hres] at h
  split at h
  · rename_i cs p' hw
    simp only [Except.ok.injEq, Prod.mk.injEq] at h
    obtain ⟨rfl, rfl⟩ := h
    obtain ⟨cs1, hw1, _, heq1⟩ := create_walk_again value value steps hk root.children cs p' hw
    obtain ⟨cs2, hw2, hcount2, _⟩ := create_walk_again value value2 steps hk root.children cs p' hw
    constructor
    · unfold RootData.create
      simp only [hq, hres, hw1, heq1 rfl]
    · refine ⟨{ schema := root.schema, children := cs2 }, ?_, hcount2⟩
      unfold RootData.create
      simp only [hq, hres, hw2]
  · cases h

/-- Witness of C14: `create("/M:c/x", "5")` on the tree that the same call
produced from the empty scenario tree returns the same leaf and the same
tree. -/
theorem create_non_list_idempotent_witness :
    scenario_root.create scenario_path "5" = .ok (scenario_tree, [0, 0]) ∧
    scenario_tree.create scenario_path "5" = .ok (scenario_tree, [0, 0]) :=
  ⟨rfl, (create_non_list_idempotent scenario_root scenario_tree scenario_path "5" "5" [0, 0]
    [{ module_name := "M", name := "c", predicates := [] },
     { module_name := "M", name := "x", predicates := [] }]
    [{ schema := SchemaNode.mk "M" { keyword := "container", arg := "c" } []
         [SchemaNode.mk "M" { keyword := "leaf", arg := "x" } [] []], key_values := [] },
     { schema := SchemaNode.mk "M" { keyword := "leaf", arg := "x" } [] [], key_values := [] }]
    rfl rfl (by
      intro st hst
      simp only [List.mem_cons, List.mem_singleton, List.not_mem_nil, or_false] at hst
      rcases hst with rfl | rfl <;> decide) rfl).1⟩

end ydk.path

/-! ## Further properties of numeric validation -/

namespace ydk.path

theorem static_cast_congr (T : NumberT) (a b : Int)
    (h : a % 2 ^ T.bits = b % 2 ^ T.bits) : static_cast T a = static_cast T b := by
  unfold static_cast
  split
  · rw [Int.add_emod a, Int.add_emod b, h]
  · exact h

theorem static_cast_emod (T : NumberT) (a : Int) :
    static_cast T a % 2 ^ T.bits = a % 2 ^ T.bits := by
  cases T <;> simp only [static_cast, NumberT.isSigned, NumberT.bits] <;> norm_num <;> omega

theorem static_cast_range (T : NumberT) (a : Int) :
    T.minValue ≤ static_cast T a ∧ static_cast T a ≤ T.maxValue := by
  cases T <;>
    simp only [static_cast, NumberT.minValue, NumberT.maxValue, NumberT.isSigned,
      NumberT.bits] <;>
    norm_num <;> omega

namespace SchemaValueNumberType

/-- The diagnostic of `validate` is a node without children. -/
theorem validate_eq_leaf {T : NumberT} (self : SchemaValueNumberType T) (value : String) :
    validate self value = DiagnosticNode.mk none "" (validate self value).errors [] := by
  by_cases hd : value.data = []
  · have h : validate self value = DiagnosticNode.mk none "" [ValidationError.INVALATTR] [] := by
      unfold validate
      simp [hd, push_error]
    rw [h]
    rfl
  · rw [validate_of_nonempty self value hd]
    split <;> split <;> rfl

/-- For non-empty texts `validate` is a function of the number compared
against the ranges. -/
theorem validate_congr_number {T : NumberT} (self : SchemaValueNumberType T) (s s' : String)
    (hs : s.data ≠ []) (hs' : s'.data ≠ [])
    (h : static_cast T (atoll (c_str s)) = static_cast T (atoll (c_str s'))) :
    validate self s = validate self s' := by
  rw [validate_of_nonempty self s hs, validate_of_nonempty self s' hs', h]

theorem validate_empty_text {T : NumberT} (self : SchemaValueNumberType T) (value : String)
    (h : value.data = []) :
    validate self value = DiagnosticNode.mk none "" [ValidationError.INVALATTR] [] := by
  unfold validate
  simp [h, push_error]

theorem has_errors_validate {T : NumberT} (self : SchemaValueNumberType T) (value : String) :
    (validate self value).has_errors = !(validate self value).errors.isEmpty := by
  conv_lhs => rw [validate_eq_leaf self value]
  rw [DiagnosticNode.has_errors_mk]
  simp

/-- With the same set of explicit intervals, not empty, `validate` returns the
same diagnostic. -/
theorem validate_congr_intervals {T : NumberT} (self : SchemaValueNumberType T) (value : String)
    (hne : self.range.intervals ≠ []) (intervals' : List Range)
    (hset : ∀ r, r ∈ intervals' ↔ r ∈ self.range.intervals) :
    validate ({ self with range := { self.range with intervals := intervals' } } :
      SchemaValueNumberType T) value = validate self value := by
  by_cases hd : value.data = []
  · rw [validate_empty_text _ value hd, validate_empty_text self value hd]
  · have hemp : self.range.intervals.isEmpty = false := by
      cases hi : self.range.intervals with
      | nil => exact absurd hi hne
      | cons r rs => rfl
    have hemp' : intervals'.isEmpty = false := by
      cases hi : intervals' with
      | nil =>
        obtain ⟨r, rs, hcons⟩ := List.exists_cons_of_ne_nil hne
        have := (hset r).mpr (by rw [hcons]; exact List.mem_cons_self _ _)
        rw [hi] at this
        exact absurd this (List.not_mem_nil _)
      | cons r rs => rfl
    rw [validate_of_nonempty _ value hd, validate_of_nonempty self value hd]
    simp only [hemp, hemp', Bool.false_eq_true, if_false]
    have hany : intervals'.any (fun r =>
          decide (r.min ≤ static_cast T (atoll (c_str value))) &&
          decide (static_cast T (atoll (c_str value)) ≤ r.max)) =
        self.range.intervals.any (fun r =>
          decide (r.min ≤ static_cast T (atoll (c_str value))) &&
          decide (static_cast T (atoll (c_str value)) ≤ r.max)) := by
      rw [Bool.eq_iff_iff, List.any_eq_true, List.any_eq_true]
      constructor
      · rintro ⟨r, hr, h⟩; exact ⟨r, (hset r).mp hr, h⟩
      · rintro ⟨r, hr, h⟩; exact ⟨r, (hset r).mpr hr, h⟩
    rw [hany]

/-- C21: on the diagnostic of `validate`, `has_errors()` is true iff `errors`
is not empty, and false exactly when `errors` is empty, that is when the value
was accepted. -/
theorem validate_has_errors_iff {T : NumberT} (self : SchemaValueNumberType T)
    (value : String) :
    ((validate self value).has_errors = true ↔ (validate self value).errors ≠ []) ∧
    ((validate self value).has_errors = false ↔ (validate self value).errors = []) := by
  rw [has_errors_validate]
  cases (validate self value).errors <;> simp

/-- C22: for non-empty texts the result of `validate` depends only on the
integer `atoll` extracts: texts with the same `atoll` value get the same
diagnostic. -/
theorem validate_depends_on_atoll {T : NumberT} (self : SchemaValueNumberType T)
    (s s' : String) (hs : s.data ≠ []) (hs' : s'.data ≠ [])
    (h : atoll (c_str s) = atoll (c_str s')) :
    validate self s = validate self s' :=
  validate_congr_number self s s' hs hs' (by rw [h])

/-- Witness of C22: `validate("5abc") = validate("5")` and
`validate("abc") = validate("0")` for an unsigned 8-bit type with default
range [0,10]. -/
theorem validate_depends_on_atoll_witness :
    (new NumberT.uint8_t 0 10).validate "5abc" = (new NumberT.uint8_t 0 10).validate "5" ∧
    (new NumberT.uint8_t 0 10).validate "abc" = (new NumberT.uint8_t 0 10).validate "0" :=
  ⟨validate_depends_on_atoll _ "5abc" "5" (by decide) (by decide) (by decide),
   validate_depends_on_atoll _ "abc" "0" (by decide) (by decide) (by decide)⟩

/-- C23: non-empty texts whose parsed integers fit in a signed 64-bit integer
and are congruent modulo `2 ^ w` get the same diagnostic from the `w`-bit
type: the number compared against the ranges is the value of `T` congruent to
the parsed integer modulo `2 ^ w`. -/
theorem validate_congruent_texts {T : NumberT} (self : SchemaValueNumberType T)
    (s s' : String) (hs : s.data ≠ []) (hs' : s'.data ≠ [])
    (hfit : LLONG_MIN ≤ strtollExact (c_str s) ∧ strtollExact (c_str s) ≤ LLONG_MAX)
    (hfit' : LLONG_MIN ≤ strtollExact (c_str s') ∧ strtollExact (c_str s') ≤ LLONG_MAX)
    (hcong : strtollExact (c_str s) % 2 ^ T.bits = strtollExact (c_str s') % 2 ^ T.bits) :
    validate self s = validate self s' ∧
    static_cast T (atoll (c_str s)) % 2 ^ T.bits = strtollExact (c_str s) % 2 ^ T.bits ∧
    T.minValue ≤ static_cast T (atoll (c_str s)) ∧
    static_cast T (atoll (c_str s)) ≤ T.maxValue := by
  refine ⟨validate_congr_number self s s' hs hs' ?_, ?_, static_cast_range T _⟩
  · rw [atoll_eq_of_fits _ hfit, atoll_eq_of_fits _ hfit']
    exact static_cast_congr T _ _ hcong
  · rw [atoll_eq_of_fits _ hfit]
    exact static_cast_emod T _

/-- Witness of C23: for an unsigned 8-bit type with default range [0,10],
"256" gets the diagnostic of "0", and the number compared for "256" is 0. -/
theorem validate_congruent_texts_witness :
    (new NumberT.uint8_t 0 10).validate "256" = (new NumberT.uint8_t 0 10).validate "0" ∧
    static_cast NumberT.uint8_t (atoll (c_str "256")) = 0 :=
  ⟨(validate_congruent_texts (new NumberT.uint8_t 0 10) "256" "0" (by decide) (by decide)
      (by decide) (by decide) (by decide)).1, by decide⟩

/-- C24: with a non-empty list of explicit intervals the result of `validate`
depends only on the set of intervals: it is the same for every list with the
same members, in particular after a reordering and after appending a
duplicate, and appending a further interval keeps an accepted value
accepted. -/
theorem validate_depends_on_interval_set {T : NumberT} (self : SchemaValueNumberType T)
    (value : String) (hne : self.range.intervals ≠ []) :
    (∀ intervals' : List Range, (∀ r, r ∈ intervals' ↔ r ∈ self.range.intervals) →
      validate ({ self with range := { self.range with intervals := intervals' } } :
        SchemaValueNumberType T) value = validate self value) ∧
    (∀ intervals' : List Range, intervals'.Perm self.range.intervals →
      validate ({ self with range := { self.range with intervals := intervals' } } :
        SchemaValueNumberType T) value = validate self value) ∧
    (∀ r ∈ self.range.intervals,
      validate ({ self with range :=
          { self.range with intervals := self.range.intervals ++ [r] } } :
        SchemaValueNumberType T) value = validate self value) ∧
    (∀ r : Range, (validate self value).errors = [] →
      (validate ({ self with range :=
          { self.range with intervals := self.range.intervals ++ [r] } } :
        SchemaValueNumberType T) value).errors = []) := by
  refine ⟨validate_congr_intervals self value hne, ?_, ?_, ?_⟩
  · intro intervals' hperm
    exact validate_congr_intervals self value hne intervals' (fun r => hperm.mem_iff)
  · intro r hr
    apply validate_congr_intervals self value hne
    intro x
    simp only [List.mem_append, List.mem_singleton]
    constructor
    · rintro (h | h)
      · exact h
      · exact h ▸ hr
    · intro h; exact Or.inl h
  · intro r hok
    by_cases hd : value.data = []
    · rw [validate_empty_text self value hd] at hok
      simp [DiagnosticNode.errors] at hok
    · have hemp : self.range.intervals.isEmpty = false := by
        cases hi : self.range.intervals with
        | nil => exact absurd hi hne
        | cons a rs => rfl
      have hemp' : (self.range.intervals ++ [r]).isEmpty = false := by
        cases hi : self.range.intervals with
        | nil => exact absurd hi hne
        | cons a rs => rfl
      rw [validate_of_nonempty self value hd] at hok
      rw [validate_of_nonempty _ value hd]
      simp only [hemp, hemp', Bool.false_eq_true, if_false] at hok ⊢
      split at hok
      · rename_i hany
        rw [if_pos (by rw [List.any_append, hany]; rfl)]
        rfl
      · simp [DiagnosticNode.errors] at hok

/-- Witness of C24: an unsigned 8-bit type with explicit intervals [20,30] and
[40,50] returns for "25" the diagnostic it returns with the intervals in the
other order. -/
theorem validate_depends_on_interval_set_witness :
    validate
      ({ module_name := "", type := DataType.UINT8,
         range := { default_range := { min := 0, max := 10 },
                    intervals := [{ min := 40, max := 50 }, { min := 20, max := 30 }] } } :
        SchemaValueNumberType NumberT.uint8_t) "25" =
    validate
      ({ module_name := "", type := DataType.UINT8,
         range := { default_range := { min := 0, max := 10 },
                    intervals := [{ min := 20, max := 30 }, { min := 40, max := 50 }] } } :
        SchemaValueNumberType NumberT.uint8_t) "25" :=
  (validate_depends_on_interval_set
    ({ module_name := "", type := DataType.UINT8,
       range := { default_range := { min := 0, max := 10 },
                  intervals := [{ min := 20, max := 30 }, { min := 40, max := 50 }] } } :
      SchemaValueNumberType NumberT.uint8_t) "25" (by decide)).2.1
    [{ min := 40, max := 50 }, { min := 20, max := 30 }] (List.Perm.swap _ _ [])

end SchemaValueNumberType

end ydk.path

/-! ## Monotonicity of `has_errors`, messages of the path errors -/

namespace ydk.path.DiagnosticNode

variable {E T : Type}

/-- C25: `has_errors()` is monotone: on a tree on which it is true, appending
an error to the `errors` of any node, or a child subtree to the `children` of
any node, gives a tree on which it is still true. -/
theorem has_errors_monotone (n n' : DiagnosticNode E T) (h : Grows n n')
    (he : has_errors n = true) : has_errors n' = true := by
  induction h with
  | addError p s es cs e =>
    rw [has_errors_mk]
    simp
  | addChild p s es cs c =>
    rw [has_errors_mk] at he ⊢
    rw [Bool.or_eq_true] at he ⊢
    rcases he with he | he
    · exact Or.inl he
    · right
      rw [List.any_append, he]
      rfl
  | inChild p s es l₁ l₂ c c' _ ih =>
    rw [has_errors_mk] at he ⊢
    rw [Bool.or_eq_true] at he ⊢
    rcases he with he | he
    · exact Or.inl he
    · right
      rw [List.any_eq_true] at he ⊢
      obtain ⟨d, hd, hde⟩ := he
      rw [List.mem_append, List.mem_cons] at hd
      rcases hd with hd | hd | hd
      · exact ⟨d, List.mem_append.mpr (Or.inl hd), hde⟩
      · subst hd
        exact ⟨c', List.mem_append.mpr (Or.inr (List.mem_cons_self _ _)), ih hde⟩
      · exact ⟨d, List.mem_append.mpr (Or.inr (List.mem_cons_of_mem _ hd)), hde⟩

/-- Witness of C25: in a tree whose only error sits in the first child, a
subtree is appended to the children of the second child. -/
theorem has_errors_monotone_witness :
    has_errors
      (mk none "r" ([] : List ValidationError)
        [mk none "a" [ValidationError.INVAL] [],
         mk none "b" [] [mk none "c" [] []]]) = true :=
  has_errors_monotone
    (mk none "r" [] [mk none "a" [ValidationError.INVAL] [], mk none "b" [] []])
    (mk none "r" [] [mk none "a" [ValidationError.INVAL] [], mk none "b" [] [mk none "c" [] []]])
    (Grows.inChild none "r" [] [mk none "a" [ValidationError.INVAL] []] []
      (mk none "b" [] []) (mk none "b" [] [mk none "c" [] []])
      (Grows.addChild none "b" [] [] (mk none "c" [] [])))
    (by decide)

end ydk.path.DiagnosticNode

namespace ydk.path

/-- C26: the message of `YCPPPathError(e)` is "Data Validation Error" for
every code `e`, and is the message of `YCPPDataValidationError()`: the message
tells neither one path error code from another nor a path error from a data
validation error. -/
theorem path_error_message_is_data_validation :
    (∀ e : YCPPPathError.Error,
      (YCPPPathError.new e).toYCPPCoreError.toYCPPError.what = "Data Validation Error".data) ∧
    YCPPDataValidationError.new.toYCPPCoreError.toYCPPError.what =
      "Data Validation Error".data ∧
    (∀ e e' : YCPPPathError.Error,
      (YCPPPathError.new e).toYCPPCoreError.toYCPPError.what =
        (YCPPPathError.new e').toYCPPCoreError.toYCPPError.what) ∧
    (∀ e : YCPPPathError.Error,
      (YCPPPathError.new e).toYCPPCoreError.toYCPPError.what =
        YCPPDataValidationError.new.toYCPPCoreError.toYCPPError.what) := by
  have hmsg : (YCPPCoreError.new "Data Validation Error").toYCPPError.what =
      "Data Validation Error".data := by decide
  exact ⟨fun _ => hmsg, hmsg, fun _ _ => rfl, fun _ => rfl⟩

end ydk.path

/-! ## Creation of list instances -/

namespace ydk.path

end ydk.path

/-! ## Round trip of `path()` through `find()` -/

namespace ydk.path

end ydk.path
